import Mathlib

set_option maxRecDepth 100000

/-!
Verification development for the goworkers worker-pool library
(package goworkers, file goworkers.go).

The Go source is a small concurrent state machine: callers submit jobs
through Submit / SubmitCheckError / SubmitCheckResult, a dispatcher loop
moves envelopes through a buffered queue to workers, workers execute jobs
and route outcomes to two buffered output channels, and Stop tears the
pool down once the two job counters read zero.

We embed the program in two layers:

1. Pure value-level functions translated directly from the source:
   the option clamping done by New, the non-blocking output-channel send
   performed inside the wrapped job closures, and the worker-spawn
   condition evaluated on dispatch.

2. A small-step operational semantics of the whole pool.  Every
   goroutine of the source (submitting callers, the start() dispatcher
   loop, the per-dispatch wrapper goroutines, startWorker() workers, and
   Stop() callers) becomes a thread with an explicit program counter;
   every atomic counter operation, channel rendezvous, buffered-channel
   operation and channel close of the source is one transition.
   uint32 counters are Nat values taken modulo 2^32, matching
   atomic.AddUint32 with ^uint32(0) as the decrement.
   A send on a closed channel (a Go runtime panic) sets a flag.
   Timer expiry is modelled as an always-enabled nondeterministic step,
   and each multi-load condition of the source is evaluated in one step
   on a consistent snapshot; both choices only matter for safety claims,
   where they are conservative for the traces we exhibit.
-/

namespace GoWorkers

/-- Modulus of Go's uint32 arithmetic. -/
def U32 : Nat := 4294967296

/-- atomic.AddUint32(&x, 1) on a uint32. -/
def wrapInc (x : Nat) : Nat := (x + 1) % U32

/-- atomic.AddUint32(&x, ^uint32(0)) on a uint32: add 2^32 - 1, i.e. subtract 1 mod 2^32. -/
def wrapDec (x : Nat) : Nat := (x + (U32 - 1)) % U32

/-- Source constant defaultWorkers = 64. -/
def defaultWorkers : Nat := 64

/-- Source constant defaultQSize = 128. -/
def defaultQSize : Nat := 128

/-- Source constant outputChanSize = 100. -/
def outputChanSize : Nat := 100

/-- The caller-visible Options struct (Timeout and Logs omitted: they do not
affect the scheduling state we model beyond the timer, which is modelled
nondeterministically). -/
structure Options where
  workers : Nat
  qsize : Nat
deriving DecidableEq, Repr

/-- maxWorkers as computed by New: defaultWorkers unless args[0].Workers > defaultWorkers. -/
def newMaxWorkers : Option Options → Nat
  | none => defaultWorkers
  | some o => if defaultWorkers < o.workers then o.workers else defaultWorkers

/-- bufferedQ capacity as computed by New: defaultQSize unless args[0].QSize > defaultQSize. -/
def newQSize : Option Options → Nat
  | none => defaultQSize
  | some o => if defaultQSize < o.qsize then o.qsize else defaultQSize

/-- The three job shapes accepted by the three submission entry points.
Errors and results are opaque payloads; none models a nil error or nil
interface value. -/
inductive JobKind
  | plain
  | checkError (err : Option Nat)
  | checkResult (result : Option Nat) (err : Option Nat)
deriving DecidableEq, Repr

/-- A buffered output channel (ErrChan / ResultChan): its buffer contents and
whether it has been closed. -/
structure OutChan where
  buf : List (Option Nat)
  closed : Bool
deriving DecidableEq, Repr

/-- A freshly made output channel, as allocated by New. -/
def mkChan : OutChan := { buf := [], closed := false }

/-- The non-blocking send of the source's select-with-default.
Returns the channel afterwards and whether the send hit a closed channel
(a Go runtime panic).  If the buffer is full the value is dropped. -/
def trySend (c : OutChan) (v : Option Nat) : OutChan × Bool :=
  if c.closed then (c, true)
  else if c.buf.length < outputChanSize then ({ c with buf := c.buf ++ [v] }, false)
  else (c, false)

/-- Result of executing one wrapped job closure: the two output channels
afterwards and whether a send on a closed channel occurred. -/
structure RunResult where
  errChan : OutChan
  resChan : OutChan
  sendOnClosed : Bool
deriving DecidableEq, Repr

/-- The body of the closure each Submit variant pushes on jobQ, as executed
by a worker.

Submit wraps the job with no outcome handling.

SubmitCheckError wraps it as: err := job(); select case ErrChan <- err
/ default.  Note that the source performs this send unconditionally,
with no nil check on err.

SubmitCheckResult wraps it as: result, err := job(); if err != nil then
nonblocking send of err on ErrChan else nonblocking send of result on
ResultChan. -/
def runEnvelope (env : JobKind) (e r : OutChan) : RunResult :=
  match env with
  | .plain => { errChan := e, resChan := r, sendOnClosed := false }
  | .checkError err =>
      let p := trySend e err
      { errChan := p.1, resChan := r, sendOnClosed := p.2 }
  | .checkResult result err =>
      match err with
      | some ex =>
          let p := trySend e (some ex)
          { errChan := p.1, resChan := r, sendOnClosed := p.2 }
      | none =>
          let p := trySend r result
          { errChan := e, resChan := p.1, sendOnClosed := p.2 }

/-! ## Small-step interleaving model -/

/-- Program counter of a caller inside one of the three Submit functions:
load of stopping; the qnumJobs increment; the blocking send on jobQ;
then returned (accepted or rejected).  A send on a closed jobQ is a Go
panic; the thread is parked at pcPanicked. -/
inductive SubPC
  | checkStop
  | incQ
  | sendJob
  | doneAccepted
  | doneRejected
  | pcPanicked
deriving DecidableEq, Repr

/-- Program counter of the goroutine start() spawns per dispatched envelope:
the spawn-condition check (possibly starting a worker), the blocking send
on workerQ, the numJobs increment, the qnumJobs decrement, done.
A send on a closed workerQ is a Go panic; the thread parks at pcPanicked. -/
inductive WrapPC
  | check
  | send
  | inc
  | dec
  | done
  | pcPanicked
deriving DecidableEq, Repr

/-- Program counter of a startWorker() goroutine: the numWorkers increment on
entry; the receive loop (idle); executing a received job; the numJobs
decrement after the job; the deferred numWorkers decrement on return; dead. -/
inductive WorkPC
  | spawnInc
  | idle
  | running (env : JobKind)
  | decJob
  | exitDec
  | deadW
deriving DecidableEq, Repr

/-- Program counter of a caller inside Stop(): the compare-and-swap on
stopping; the JobNum() read; the QueuedJobNum() read; the blocking send on
terminate; the close of jobQ; returned (as the winner, or immediately as a
loser of the CAS). -/
inductive StopPC
  | cas
  | read1
  | read2
  | sendTerm
  | closeJobQ
  | doneS
  | doneAlready
deriving DecidableEq, Repr

/-- Program counter of the single start() dispatcher goroutine: the first
select (terminate / jobQ receive); holding an envelope while sending it on
bufferedQ; the second select (bufferedQ receive, spawning a wrapper);
then the four deferred closes after terminate, in source order:
bufferedQ, workerQ, ErrChan, ResultChan; dead. -/
inductive DispPC
  | sel1
  | pushBuf (env : JobKind)
  | sel2
  | closingB
  | closingW
  | closingE
  | closingR
  | deadD
deriving DecidableEq, Repr

/-- A thread of the model: a submitting caller (with its envelope), a
per-dispatch wrapper goroutine (with its envelope), a worker goroutine, or
a Stop() caller. -/
inductive Thread
  | sub (pc : SubPC) (env : JobKind)
  | wrap (pc : WrapPC) (env : JobKind)
  | work (pc : WorkPC)
  | stopT (pc : StopPC)
deriving DecidableEq, Repr

/-- The full pool state: the four uint32 counters, the stopping flag, the
channels (with closed flags), the dispatcher program counter, the other
threads, a flag recording whether any send on a closed channel (Go panic)
has occurred, and per-channel close-event counters (instrumentation used
to state the close-at-most-once property; the closes themselves follow
the source). -/
structure PoolState where
  numWorkers : Nat
  maxWorkers : Nat
  numJobs : Nat
  qnumJobs : Nat
  stopping : Bool
  jobQClosed : Bool
  bufQ : List JobKind
  bufCap : Nat
  bufClosed : Bool
  workerQClosed : Bool
  errChan : OutChan
  resChan : OutChan
  disp : DispPC
  threads : List Thread
  panicked : Bool
  closeJobQCount : Nat
  closeBufCount : Nat
  closeWorkerQCount : Nat
  closeErrCount : Nat
  closeResCount : Nat
deriving DecidableEq, Repr

/-- JobNum(): atomic load of numJobs. -/
def JobNum (s : PoolState) : Nat := s.numJobs

/-- QueuedJobNum(): atomic load of qnumJobs. -/
def QueuedJobNum (s : PoolState) : Nat := s.qnumJobs

/-- WorkerNum(): atomic load of numWorkers. -/
def WorkerNum (s : PoolState) : Nat := s.numWorkers

/-- MaxWorkerNum(): atomic load of maxWorkers. -/
def MaxWorkerNum (s : PoolState) : Nat := s.maxWorkers

/-- The worker-spawn condition evaluated by the dispatch wrapper in start():
(gw.WorkerNum() < 2) || (gw.WorkerNum() < gw.MaxWorkerNum() &&
gw.QueuedJobNum() >= 1). -/
def shouldSpawn (s : PoolState) : Bool :=
  decide (WorkerNum s < 2) ||
    (decide (WorkerNum s < MaxWorkerNum s) && decide (1 ≤ QueuedJobNum s))

/-- The spawn rule as the specification words it, for comparison with the
source condition shouldSpawn: spawn iff (maxWorkers == 0 OR liveWorkers <
maxWorkers) AND activeJobs > liveWorkers. -/
def specSpawnRule (s : PoolState) : Bool :=
  (decide (MaxWorkerNum s = 0) || decide (WorkerNum s < MaxWorkerNum s)) &&
    decide (WorkerNum s < JobNum s)

/-- The idle-timeout suicide condition of startWorker():
(gw.JobNum() + gw.QueuedJobNum()) < gw.WorkerNum(), a uint32 addition. -/
def timerExitCond (s : PoolState) : Bool :=
  decide ((JobNum s + QueuedJobNum s) % U32 < WorkerNum s)

/-- Replace thread i. -/
def setThread (s : PoolState) (i : Nat) (t : Thread) : PoolState :=
  { s with threads := s.threads.set i t }

/-- Scheduler labels.  tstep i performs the unique enabled local step of
thread i; the rendezvous labels perform a joint step of the two endpoints
of an unbuffered channel; timer i fires worker i's idle timer; closedRecv
i is worker i's receive on the closed workerQ; dstep is the dispatcher's
own step. -/
inductive Label
  | tstep (i : Nat)
  | jobQSend (i : Nat)
  | termSend (i : Nat)
  | handoff (i j : Nat)
  | timer (i : Nat)
  | closedRecv (i : Nat)
  | dstep
deriving DecidableEq, Repr

/-- Transition of a submit caller at its current program counter (the body of
Submit / SubmitCheckError / SubmitCheckResult). -/
def stepSub (s : PoolState) (i : Nat) : SubPC → JobKind → Option PoolState
  | .checkStop, env =>
      if s.stopping then some (setThread s i (.sub .doneRejected env))
      else some (setThread s i (.sub .incQ env))
  | .incQ, env =>
      some { setThread s i (.sub .sendJob env) with qnumJobs := wrapInc s.qnumJobs }
  | .sendJob, env =>
      if s.jobQClosed then
        some { setThread s i (.sub .pcPanicked env) with panicked := true }
      else none
  | _, _ => none

/-- Transition of a dispatch wrapper goroutine at its current program counter
(the goroutine body spawned in start()'s second select). -/
def stepWrap (s : PoolState) (i : Nat) : WrapPC → JobKind → Option PoolState
  | .check, env =>
      let s1 := setThread s i (.wrap .send env)
      if shouldSpawn s then some { s1 with threads := s1.threads ++ [.work .spawnInc] }
      else some s1
  | .send, env =>
      if s.workerQClosed then
        some { setThread s i (.wrap .pcPanicked env) with panicked := true }
      else none
  | .inc, env =>
      some { setThread s i (.wrap .dec env) with numJobs := wrapInc s.numJobs }
  | .dec, env =>
      some { setThread s i (.wrap .done env) with qnumJobs := wrapDec s.qnumJobs }
  | _, _ => none

/-- Transition of a worker goroutine at its current program counter (the body
of startWorker()). -/
def stepWork (s : PoolState) (i : Nat) : WorkPC → Option PoolState
  | .spawnInc =>
      some { setThread s i (.work .idle) with numWorkers := wrapInc s.numWorkers }
  | .running env =>
      let out := runEnvelope env s.errChan s.resChan
      some { setThread s i (.work .decJob) with
             errChan := out.errChan, resChan := out.resChan,
             panicked := s.panicked || out.sendOnClosed }
  | .decJob =>
      some { setThread s i (.work .idle) with numJobs := wrapDec s.numJobs }
  | .exitDec =>
      some { setThread s i (.work .deadW) with numWorkers := wrapDec s.numWorkers }
  | _ => none

/-- Transition of a Stop caller at its current program counter (the body of
Stop()). -/
def stepStop (s : PoolState) (i : Nat) : StopPC → Option PoolState
  | .cas =>
      if s.stopping then some (setThread s i (.stopT .doneAlready))
      else some { setThread s i (.stopT .read1) with stopping := true }
  | .read1 =>
      if JobNum s ≠ 0 then some (setThread s i (.stopT .read1))
      else some (setThread s i (.stopT .read2))
  | .read2 =>
      if QueuedJobNum s ≠ 0 then some (setThread s i (.stopT .read1))
      else some (setThread s i (.stopT .sendTerm))
  | .closeJobQ =>
      some { setThread s i (.stopT .doneS) with
             jobQClosed := true, closeJobQCount := s.closeJobQCount + 1 }
  | _ => none

/-- Local transition of thread i. -/
def stepTh (s : PoolState) (i : Nat) : Thread → Option PoolState
  | .sub pc env => stepSub s i pc env
  | .wrap pc env => stepWrap s i pc env
  | .work pc => stepWork s i pc
  | .stopT pc => stepStop s i pc

/-- Expiry of worker i's idle timer: the worker exits (toward its deferred
numWorkers decrement) iff (JobNum() + QueuedJobNum()) < WorkerNum(),
otherwise it resets the timer and keeps waiting. -/
def timerTh (s : PoolState) (i : Nat) : Thread → Option PoolState
  | .work .idle =>
      if timerExitCond s then some (setThread s i (.work .exitDec)) else some s
  | _ => none

/-- Worker i's receive on a closed workerQ: ok is false and the worker
returns (toward its deferred numWorkers decrement). -/
def closedRecvTh (s : PoolState) (i : Nat) : Thread → Option PoolState
  | .work .idle =>
      if s.workerQClosed then some (setThread s i (.work .exitDec)) else none
  | _ => none

/-- The dispatcher's own transition at its current program counter: the
blocking send into bufferedQ, the second select's receive from bufferedQ
(spawning the dispatch wrapper goroutine), and the four deferred closes
executed in source order after terminate is received. -/
def dispatchStep (s : PoolState) : DispPC → Option PoolState
  | .pushBuf env =>
      if s.bufQ.length < s.bufCap then
        some { s with bufQ := s.bufQ ++ [env], disp := .sel2 }
      else none
  | .sel2 =>
      match s.bufQ with
      | [] => none
      | env :: rest =>
          some { s with
                 bufQ := rest, disp := .sel1,
                 threads := s.threads ++ [.wrap .check env] }
  | .closingB =>
      some { s with
             bufClosed := true, disp := .closingW,
             closeBufCount := s.closeBufCount + 1 }
  | .closingW =>
      some { s with
             workerQClosed := true, disp := .closingE,
             closeWorkerQCount := s.closeWorkerQCount + 1 }
  | .closingE =>
      some { s with
             errChan := { s.errChan with closed := true }, disp := .closingR,
             closeErrCount := s.closeErrCount + 1 }
  | .closingR =>
      some { s with
             resChan := { s.resChan with closed := true }, disp := .deadD,
             closeResCount := s.closeResCount + 1 }
  | _ => none

/-- One transition of the model.  Returns none when the labelled step is not
enabled in the given state. -/
def step : Label → PoolState → Option PoolState
  | .tstep i, s =>
    match s.threads.get? i with
    | some t => stepTh s i t
    | none => none
  | .jobQSend i, s =>
    match s.threads.get? i, s.disp with
    | some (.sub .sendJob env), .sel1 =>
        if s.jobQClosed then none
        else some { setThread s i (.sub .doneAccepted env) with disp := .pushBuf env }
    | _, _ => none
  | .termSend i, s =>
    match s.threads.get? i, s.disp with
    | some (.stopT .sendTerm), .sel1 =>
        some { setThread s i (.stopT .closeJobQ) with disp := .closingB }
    | _, _ => none
  | .handoff i j, s =>
    match s.threads.get? i, s.threads.get? j with
    | some (.wrap .send env), some (.work .idle) =>
        if s.workerQClosed then none
        else some { s with
          threads := (s.threads.set i (.wrap .inc env)).set j (.work (.running env)) }
    | _, _ => none
  | .timer i, s =>
    match s.threads.get? i with
    | some t => timerTh s i t
    | none => none
  | .closedRecv i, s =>
    match s.threads.get? i with
    | some t => closedRecvTh s i t
    | none => none
  | .dstep, s => dispatchStep s s.disp

/-- Run a list of scheduler labels from a state. -/
def run : List Label → PoolState → Option PoolState
  | [], s => some s
  | l :: ls, s =>
    match step l s with
    | none => none
    | some s' => run ls s'

/-- The environment of a pool: the calls the callers will make. -/
inductive Agenda
  | submit (env : JobKind)
  | stopCall
deriving DecidableEq, Repr

/-- The thread a pending call starts as. -/
def initThread : Agenda → Thread
  | .submit env => .sub .checkStop env
  | .stopCall => .stopT .cas

/-- The state New returns (with go gw.start() about to run its first
select), together with the environment's pending calls. -/
def initState (opts : Option Options) (agenda : List Agenda) : PoolState :=
  { numWorkers := 0
    maxWorkers := newMaxWorkers opts
    numJobs := 0
    qnumJobs := 0
    stopping := false
    jobQClosed := false
    bufQ := []
    bufCap := newQSize opts
    bufClosed := false
    workerQClosed := false
    errChan := mkChan
    resChan := mkChan
    disp := .sel1
    threads := agenda.map initThread
    panicked := false
    closeJobQCount := 0
    closeBufCount := 0
    closeWorkerQCount := 0
    closeErrCount := 0
    closeResCount := 0 }

/-! ## Concrete schedules used to settle the temporal claims -/

/-- One SubmitCheckError call whose job returns an error, and one Stop call. -/
def agendaA : List Agenda := [.submit (.checkError (some 7)), .stopCall]

/-- An interleaving of agendaA in which Stop reads JobNum() before the
dispatch wrapper's numJobs increment and QueuedJobNum() after its qnumJobs
decrement, observes quiescence while the job is still running, tears the
pool down, and the worker then sends on the closed ErrChan.

Thread indices: 0 = the SubmitCheckError caller, 1 = the Stop caller,
2 = the dispatch wrapper goroutine, 3 = the worker goroutine. -/
def traceA : List Label :=
  [ .tstep 0        -- Submit: stopping == 0
  , .tstep 0        -- Submit: qnumJobs++  (now 1)
  , .jobQSend 0     -- Submit: jobQ <- job  (dispatcher receives)
  , .dstep          -- dispatcher: bufferedQ <- job
  , .dstep          -- dispatcher: <-bufferedQ, go wrapper (thread 2)
  , .tstep 2        -- wrapper: spawn check (0 < 2), go startWorker (thread 3)
  , .tstep 3        -- worker: numWorkers++  (now 1), waits on workerQ
  , .handoff 2 3    -- wrapper: workerQ <- job; worker starts running it
  , .tstep 1        -- Stop: CAS stopping 0 -> 1
  , .tstep 1        -- Stop: JobNum() == 0, proceed to second read
  , .tstep 2        -- wrapper: numJobs++  (now 1)
  , .tstep 2        -- wrapper: qnumJobs--  (now 0)
  , .tstep 1        -- Stop: QueuedJobNum() == 0, quiescence observed
  , .termSend 1     -- Stop: terminate <- struct; dispatcher returns
  , .dstep          -- deferred close(bufferedQ)
  , .dstep          -- deferred close(workerQ)
  , .dstep          -- deferred close(ErrChan)
  , .dstep          -- deferred close(ResultChan)
  , .tstep 3 ]      -- worker finishes job: select ErrChan <- err on closed channel

/-- The prefix of traceA up to the point where Stop has observed both
counters zero while the worker is still running the job. -/
def traceAobs : List Label := traceA.take 13

/-- The prefix of traceA up to the handoff: the job is already executing on
a worker while numJobs is still 0. -/
def traceAhand : List Label := traceA.take 8

/-- Two plain Submit calls. -/
def agendaB : List Agenda := [.submit .plain, .submit .plain]

/-- A schedule of agendaB that runs the first job to completion and then
dispatches the second.  At the second dispatch the pool has
numWorkers = 1, numJobs = 0, qnumJobs = 1: the specification's spawn rule
says no worker may be spawned (activeJobs is not greater than
liveWorkers), but the source condition spawns one (WorkerNum() < 2).

Thread indices: 0, 1 = the two Submit callers, 2 = first wrapper,
3 = first worker, 4 = second wrapper. -/
def traceB : List Label :=
  [ .tstep 0, .tstep 0, .jobQSend 0, .dstep, .dstep
  , .tstep 2        -- wrapper 1: spawn check, go startWorker (thread 3)
  , .tstep 3        -- worker: numWorkers++
  , .handoff 2 3
  , .tstep 2        -- wrapper 1: numJobs++
  , .tstep 2        -- wrapper 1: qnumJobs--
  , .tstep 3        -- worker runs the (plain) job
  , .tstep 3        -- worker: numJobs--
  , .tstep 1, .tstep 1, .jobQSend 1, .dstep, .dstep ]

/-- traceB followed by the second dispatch wrapper's spawn check. -/
def traceBspawn : List Label := traceB ++ [.tstep 4]

/-- Sixty-five plain Submit calls, against the default ceiling of 64. -/
def agendaC : List Agenda := List.replicate 65 (.submit .plain)

/-- The five steps that accept submission i and turn it into a dispatch
wrapper goroutine. -/
def subCycle (i : Nat) : List Label :=
  [.tstep i, .tstep i, .jobQSend i, .dstep, .dstep]

/-- A schedule of agendaC in which all 65 dispatch wrappers evaluate the
spawn condition before any of the started workers has executed its
numWorkers increment: every check reads numWorkers = 0 < 2 and decides to
spawn, and the pool ends up with 65 live workers against maxWorkers = 64.

Thread indices: 0-64 submitters, 65-129 wrappers, 130-194 workers. -/
def traceC : List Label :=
  ((List.range 65).map subCycle).flatten
    ++ (List.range 65).map (fun j => .tstep (65 + j))
    ++ (List.range 65).map (fun k => .tstep (130 + k))

/-! ## Accounting of envelopes against the two job counters

Each accepted envelope moves through the pipeline
submitter (after its qnumJobs increment) → dispatcher hand →
bufferedQ → wrapper goroutine → worker.  The predicates below read a
thread's position in that pipeline off its program counter; the job
counters of a reachable state are exactly determined by these positions
(theorem inv_run below). -/

/-- A submit caller whose qnumJobs increment has executed but whose envelope
has not yet been taken by the dispatcher (including one that panicked on a
closed jobQ and will never hand it over). -/
def isQSub : Thread → Bool
  | .sub .sendJob _ => true
  | .sub .pcPanicked _ => true
  | _ => false

/-- A submit caller whose envelope was accepted into the dispatch path. -/
def isDA : Thread → Bool
  | .sub .doneAccepted _ => true
  | _ => false

/-- A submit caller, at any point. -/
def isSub : Thread → Bool
  | .sub _ _ => true
  | _ => false

/-- A dispatch wrapper that has not yet executed its numJobs increment
(including one that panicked on a closed workerQ and never will). -/
def isWrapPre : Thread → Bool
  | .wrap .check _ => true
  | .wrap .send _ => true
  | .wrap .pcPanicked _ => true
  | _ => false

/-- A dispatch wrapper between its numJobs increment and its qnumJobs
decrement. -/
def isWinc : Thread → Bool
  | .wrap .inc _ => true
  | _ => false

/-- A dispatch wrapper about to execute its qnumJobs decrement. -/
def isWdec : Thread → Bool
  | .wrap .dec _ => true
  | _ => false

/-- A dispatch wrapper that has finished. -/
def isWdone : Thread → Bool
  | .wrap .done _ => true
  | _ => false

/-- A dispatch wrapper, at any point. -/
def isWrap : Thread → Bool
  | .wrap _ _ => true
  | _ => false

/-- A dispatch wrapper past its spawn check. -/
def isWrapPast : Thread → Bool
  | .wrap .check _ => false
  | .wrap _ _ => true
  | _ => false

/-- A worker currently executing a job. -/
def isRun : Thread → Bool
  | .work (.running _) => true
  | _ => false

/-- A worker that has finished a job but not yet executed its numJobs
decrement. -/
def isPost : Thread → Bool
  | .work .decJob => true
  | _ => false

/-- A worker goroutine, at any point. -/
def isWork : Thread → Bool
  | .work _ => true
  | _ => false

/-- A Stop caller that won the compare-and-swap on stopping. -/
def isWinner : Thread → Bool
  | .stopT .read1 => true
  | .stopT .read2 => true
  | .stopT .sendTerm => true
  | .stopT .closeJobQ => true
  | .stopT .doneS => true
  | _ => false

/-- A Stop caller that has executed close(jobQ). -/
def isDoneS : Thread → Bool
  | .stopT .doneS => true
  | _ => false

/-- 1 while the dispatcher holds an envelope it has taken from jobQ but not
yet pushed into bufferedQ. -/
def dispHold : DispPC → Nat
  | .pushBuf _ => 1
  | _ => 0

/-- Dispatcher program counters at which close(bufferedQ) has executed. -/
def dPastB : DispPC → Bool
  | .closingW => true
  | .closingE => true
  | .closingR => true
  | .deadD => true
  | _ => false

/-- Dispatcher program counters at which close(workerQ) has executed. -/
def dPastW : DispPC → Bool
  | .closingE => true
  | .closingR => true
  | .deadD => true
  | _ => false

/-- Dispatcher program counters at which close(ErrChan) has executed. -/
def dPastE : DispPC → Bool
  | .closingR => true
  | .deadD => true
  | _ => false

/-- Dispatcher program counters at which close(ResultChan) has executed. -/
def dPastR : DispPC → Bool
  | .deadD => true
  | _ => false

/-- Number of envelopes currently counted by qnumJobs: accepted but with the
wrapper's qnumJobs decrement still pending. -/
def qCount (s : PoolState) : Nat :=
  s.threads.countP isQSub + dispHold s.disp + s.bufQ.length
    + s.threads.countP isWrapPre + s.threads.countP isWinc + s.threads.countP isWdec

/-- Number of envelopes in flight: accepted (qnumJobs increment executed) and
not yet fully executed and accounted (the worker's numJobs decrement still
pending), wherever they sit in the pipeline. -/
def inFlight (s : PoolState) : Nat :=
  s.threads.countP isQSub + dispHold s.disp + s.bufQ.length
    + s.threads.countP isWrapPre + s.threads.countP isRun + s.threads.countP isPost

/-- The inductive invariant tying the job counters of a reachable pool state
to the positions of its threads.  n is the (constant) number of submit
callers.  q1/q2: the two job counters are determined (mod 2^32) by the
pipeline positions; q3: every accepted envelope is in exactly one
dispatch-side place; q4: workers were each started by some wrapper's spawn
check; q5: submit callers persist. -/
structure InvQ (n : Nat) (s : PoolState) : Prop where
  q1 : s.qnumJobs = qCount s % U32
  q2 : (s.numJobs + s.threads.countP isWinc) % U32
        = (s.threads.countP isRun + s.threads.countP isPost) % U32
  q3 : s.threads.countP isDA
        = dispHold s.disp + s.bufQ.length + s.threads.countP isWrapPre
          + s.threads.countP isWinc + s.threads.countP isWdec + s.threads.countP isWdone
  q4 : s.threads.countP isWork ≤ s.threads.countP isWrapPast
  q5 : s.threads.countP isSub = n

/-- The inductive invariant for the teardown: each close event has happened
exactly as far as the closing program counters have advanced (c1-c5), and
at most one Stop caller ever wins the compare-and-swap on stopping
(c6/c7). -/
structure InvC (s : PoolState) : Prop where
  c1 : s.closeBufCount = if dPastB s.disp then 1 else 0
  c2 : s.closeWorkerQCount = if dPastW s.disp then 1 else 0
  c3 : s.closeErrCount = if dPastE s.disp then 1 else 0
  c4 : s.closeResCount = if dPastR s.disp then 1 else 0
  c5 : s.closeJobQCount = s.threads.countP isDoneS
  c6 : s.threads.countP isWinner ≤ 1
  c7 : s.stopping = false → s.threads.countP isWinner = 0

/-- Concrete pool states used to witness the hypothesis-bearing theorems. -/
def c3state : PoolState :=
  { initState none [.submit .plain] with stopping := true }

def c6wstate : PoolState :=
  { initState none [] with threads := [.wrap .check .plain] }

def c7full : PoolState :=
  { initState (some { workers := 0, qsize := 0 }) [] with numWorkers := 64, qnumJobs := 1 }

def c8full : PoolState :=
  { initState none [] with threads := [.wrap .check .plain], numWorkers := 64 }

def w2a : PoolState := { initState none [] with threads := [.sub .incQ .plain] }

def w2b : PoolState :=
  { initState none [] with threads := [.wrap .send .plain, .work .idle] }

def w2c : PoolState := { initState none [] with threads := [.wrap .inc .plain] }

def w2d : PoolState := { initState none [] with threads := [.wrap .dec .plain] }

def c9state : PoolState :=
  { initState none [.stopCall] with stopping := true }

/-! ## Generic counting lemmas -/

theorem get_set_ne {α : Type} (l : List α) (i j : Nat) (a : α) (h : i ≠ j) :
    (l.set i a).get? j = l.get? j := by
  induction l generalizing i j with
  | nil => simp
  | cons b t ih =>
    cases i with
    | zero =>
      cases j with
      | zero => omega
      | succ k => simp
    | succ m =>
      cases j with
      | zero => simp
      | succ k => simpa using ih m k (by omega)

theorem countP_set_get {α : Type} (p : α → Bool) (l : List α) (i : Nat) (t t' : α)
    (h : l.get? i = some t) :
    (l.set i t').countP p + (if p t then 1 else 0)
      = l.countP p + (if p t' then 1 else 0) := by
  induction l generalizing i with
  | nil => simp at h
  | cons a tl ih =>
    cases i with
    | zero =>
      simp only [List.get?] at h
      cases h
      simp only [List.set, List.countP_cons]
      omega
    | succ k =>
      simp only [List.get?] at h
      simp only [List.set, List.countP_cons]
      have := ih k h
      omega

theorem countP_le_of_imp {α : Type} (p q : α → Bool)
    (h : ∀ a, p a = true → q a = true) (l : List α) :
    l.countP p ≤ l.countP q := by
  induction l with
  | nil => simp
  | cons a tl ih =>
    simp only [List.countP_cons]
    have := h a
    cases hp : p a <;> cases hq : q a <;> simp_all <;> omega

theorem countP_pair_le {α : Type} (p q r : α → Bool)
    (hp : ∀ a, p a = true → r a = true) (hq : ∀ a, q a = true → r a = true)
    (hpq : ∀ a, p a = true → q a = false) (l : List α) :
    l.countP p + l.countP q ≤ l.countP r := by
  induction l with
  | nil => simp
  | cons a tl ih =>
    simp only [List.countP_cons]
    have h1 := hp a
    have h2 := hq a
    have h3 := hpq a
    cases hpa : p a <;> cases hqa : q a <;> cases hra : r a <;> simp_all <;> omega

theorem countP_wrap_split (l : List Thread) :
    l.countP isWrap
      = l.countP isWrapPre + l.countP isWinc + l.countP isWdec + l.countP isWdone := by
  induction l with
  | nil => simp
  | cons a tl ih =>
    simp only [List.countP_cons, ih]
    cases a with
    | sub pc env => simp [isWrap, isWrapPre, isWinc, isWdec, isWdone]
    | wrap pc env =>
      cases pc <;> simp [isWrap, isWrapPre, isWinc, isWdec, isWdone] <;> omega
    | work pc => simp [isWrap, isWrapPre, isWinc, isWdec, isWdone]
    | stopT pc => simp [isWrap, isWrapPre, isWinc, isWdec, isWdone]

/-! ## Claim theorems: value level -/

/-- Claim C4.  The claim states that a job submitted via SubmitCheckError
sends to ErrChan only when it returns a non-nil error.  The source wraps
the job with an unconditional non-blocking send of err, so a job returning
nil puts nil on ErrChan: evaluating the envelope of a nil-returning job on
the freshly created (open, empty) output channels yields ErrChan = [nil].
This contradicts the specification and the library's own test
TestSubmitCheckErrorNotSendNilToErrChan. -/
theorem claim_C4_nil_error_sent :
    (runEnvelope (.checkError none) mkChan mkChan).errChan.buf = [none]
      ∧ (runEnvelope (.checkError none) mkChan mkChan).resChan.buf = [] := by
  decide

/-- Claim C5.  For a SubmitCheckResult envelope on open channels: at most one
of the two output channels changes; when the job returns an error, the
result channel is untouched and the error is either appended to ErrChan or
dropped because ErrChan is full; when the job returns no error, ErrChan is
untouched and the result is either appended to ResultChan or dropped
because ResultChan is full. -/
theorem claim_C5_result_routing (result err : Option Nat) (e r : OutChan)
    (he : e.closed = false) (hr : r.closed = false) :
    ((runEnvelope (.checkResult result err) e r).errChan.buf = e.buf
       ∨ (runEnvelope (.checkResult result err) e r).resChan.buf = r.buf)
    ∧ (∀ ex, err = some ex →
        (runEnvelope (.checkResult result err) e r).resChan = r
          ∧ ((runEnvelope (.checkResult result err) e r).errChan.buf = e.buf ++ [some ex]
              ∨ (outputChanSize ≤ e.buf.length
                  ∧ (runEnvelope (.checkResult result err) e r).errChan = e)))
    ∧ (err = none →
        (runEnvelope (.checkResult result err) e r).errChan = e
          ∧ ((runEnvelope (.checkResult result err) e r).resChan.buf = r.buf ++ [result]
              ∨ (outputChanSize ≤ r.buf.length
                  ∧ (runEnvelope (.checkResult result err) e r).resChan = r))) := by
  cases err with
  | none =>
    simp only [runEnvelope, trySend, he, hr, if_false, Bool.false_eq_true]
    by_cases hlen : r.buf.length < outputChanSize
    · simp [hlen]
    · simp [hlen]; omega
  | some ex =>
    simp only [runEnvelope, trySend, he, hr, if_false, Bool.false_eq_true]
    by_cases hlen : e.buf.length < outputChanSize
    · simp [hlen]
    · simp [hlen]; omega

theorem claim_C5_witness :
    ((runEnvelope (.checkResult (some 1) (some 2)) mkChan mkChan).errChan.buf = mkChan.buf
       ∨ (runEnvelope (.checkResult (some 1) (some 2)) mkChan mkChan).resChan.buf = mkChan.buf)
    ∧ (∀ ex, (some 2 : Option Nat) = some ex →
        (runEnvelope (.checkResult (some 1) (some 2)) mkChan mkChan).resChan = mkChan
          ∧ ((runEnvelope (.checkResult (some 1) (some 2)) mkChan mkChan).errChan.buf
                = mkChan.buf ++ [some ex]
              ∨ (outputChanSize ≤ mkChan.buf.length
                  ∧ (runEnvelope (.checkResult (some 1) (some 2)) mkChan mkChan).errChan
                      = mkChan)))
    ∧ ((some 2 : Option Nat) = none →
        (runEnvelope (.checkResult (some 1) (some 2)) mkChan mkChan).errChan = mkChan
          ∧ ((runEnvelope (.checkResult (some 1) (some 2)) mkChan mkChan).resChan.buf
                = mkChan.buf ++ [some 1]
              ∨ (outputChanSize ≤ mkChan.buf.length
                  ∧ (runEnvelope (.checkResult (some 1) (some 2)) mkChan mkChan).resChan
                      = mkChan))) :=
  claim_C5_result_routing (some 1) (some 2) mkChan mkChan rfl rfl

/-- Claim C3.  A Submit / SubmitCheckError / SubmitCheckResult call that
observes stopping == 1 returns at once: the caller's only transition sets
its own program counter to rejected, and the resulting state has the same
job counters, the same queue and the same output channels. -/
theorem claim_C3_reject_after_stop (s : PoolState) (i : Nat) (env : JobKind)
    (hstop : s.stopping = true)
    (hth : s.threads.get? i = some (.sub .checkStop env)) :
    step (.tstep i) s = some (setThread s i (.sub .doneRejected env))
    ∧ JobNum (setThread s i (.sub .doneRejected env)) = JobNum s
    ∧ QueuedJobNum (setThread s i (.sub .doneRejected env)) = QueuedJobNum s
    ∧ (setThread s i (.sub .doneRejected env)).bufQ = s.bufQ
    ∧ (setThread s i (.sub .doneRejected env)).errChan = s.errChan
    ∧ (setThread s i (.sub .doneRejected env)).resChan = s.resChan := by
  refine ⟨?_, rfl, rfl, rfl, rfl, rfl⟩
  simp only [step]
  rw [hth]
  simp [stepTh, stepSub, hstop]

theorem claim_C3_witness :
    step (.tstep 0) c3state = some (setThread c3state 0 (.sub .doneRejected .plain))
    ∧ JobNum (setThread c3state 0 (.sub .doneRejected .plain)) = JobNum c3state
    ∧ QueuedJobNum (setThread c3state 0 (.sub .doneRejected .plain)) = QueuedJobNum c3state
    ∧ (setThread c3state 0 (.sub .doneRejected .plain)).bufQ = c3state.bufQ
    ∧ (setThread c3state 0 (.sub .doneRejected .plain)).errChan = c3state.errChan
    ∧ (setThread c3state 0 (.sub .doneRejected .plain)).resChan = c3state.resChan :=
  claim_C3_reject_after_stop c3state 0 .plain rfl rfl

/-! ## Claim theorems: concrete interleavings -/

/-- Claim C1.  The claim states that no send to ErrChan or ResultChan ever
occurs after the channel is closed, in every interleaving.  The schedule
traceA refutes it: Stop's JobNum() read happens before the dispatch
wrapper's numJobs increment and its QueuedJobNum() read after the qnumJobs
decrement, so Stop observes both counters zero while the SubmitCheckError
job is still running, completes the teardown (closing ErrChan exactly
once, and with no panic up to that point), and the worker's subsequent
completion of the job attempts the ErrChan send and hits the closed
channel - a send on a closed channel, i.e. a Go runtime panic. -/
theorem claim_C1_send_after_close :
    (run (traceA.take 18) (initState none agendaA)).map
        (fun s => (s.panicked, s.errChan.closed, s.closeErrCount)) = some (false, true, 1)
    ∧ (run traceA (initState none agendaA)).map
        (fun s => (s.panicked, s.errChan.closed, s.errChan.buf)) = some (true, true, []) := by
  decide

/-- Claim C2 counterexample.  The claim states that numJobs (JobNum) is
incremented before the envelope is handed to a worker, counts the job
from acceptance, and is zero iff the pool is quiescent.  After the prefix
traceAhand of traceA the envelope is already executing on a worker while
JobNum() = 0 and QueuedJobNum() = 1: the increment happens only after the
handoff, the accepted job is counted by qnumJobs rather than numJobs, and
numJobs = 0 does not imply quiescence. -/
theorem claim_C2_cex :
    (run traceAhand (initState none agendaA)).map
        (fun s => (s.threads.get? 3, JobNum s, QueuedJobNum s))
      = some (some (.work (.running (.checkError (some 7)))), 0, 1) := by
  decide

/-- Claim C2 as amended.  An accepted submission increments qnumJobs exactly
once at acceptance; the workerQ handoff itself changes neither counter;
the dispatch wrapper then increments numJobs exactly once (its program
counter reaches inc only after the handoff) and decrements qnumJobs
exactly once after that increment. -/
theorem claim_C2_amended :
    (∀ (s : PoolState) (i : Nat) (env : JobKind),
        s.threads.get? i = some (.sub .incQ env) →
        step (.tstep i) s
          = some { setThread s i (.sub .sendJob env) with qnumJobs := wrapInc s.qnumJobs })
    ∧ (∀ (s : PoolState) (i j : Nat) (env : JobKind),
        s.threads.get? i = some (.wrap .send env) →
        s.threads.get? j = some (.work .idle) →
        s.workerQClosed = false →
        step (.handoff i j) s
          = some { s with
              threads := (s.threads.set i (.wrap .inc env)).set j (.work (.running env)) })
    ∧ (∀ (s : PoolState) (i : Nat) (env : JobKind),
        s.threads.get? i = some (.wrap .inc env) →
        step (.tstep i) s
          = some { setThread s i (.wrap .dec env) with numJobs := wrapInc s.numJobs })
    ∧ (∀ (s : PoolState) (i : Nat) (env : JobKind),
        s.threads.get? i = some (.wrap .dec env) →
        step (.tstep i) s
          = some { setThread s i (.wrap .done env) with qnumJobs := wrapDec s.qnumJobs }) := by
  refine ⟨?_, ?_, ?_, ?_⟩
  · intro s i env h
    simp only [step]
    rw [h]
    simp [stepTh, stepSub]
  · intro s i j env h1 h2 h3
    simp only [step]
    rw [h1, h2]
    simp [h3]
  · intro s i env h
    simp only [step]
    rw [h]
    simp [stepTh, stepWrap]
  · intro s i env h
    simp only [step]
    rw [h]
    simp [stepTh, stepWrap]

theorem claim_C2_amended_witness :
    step (.tstep 0) w2a
      = some { setThread w2a 0 (.sub .sendJob .plain) with qnumJobs := wrapInc w2a.qnumJobs }
    ∧ step (.handoff 0 1) w2b
      = some { w2b with
          threads := (w2b.threads.set 0 (.wrap .inc .plain)).set 1 (.work (.running .plain)) }
    ∧ step (.tstep 0) w2c
      = some { setThread w2c 0 (.wrap .dec .plain) with numJobs := wrapInc w2c.numJobs }
    ∧ step (.tstep 0) w2d
      = some { setThread w2d 0 (.wrap .done .plain) with qnumJobs := wrapDec w2d.qnumJobs } :=
  ⟨claim_C2_amended.1 w2a 0 .plain rfl,
   claim_C2_amended.2.1 w2b 0 1 .plain rfl rfl rfl,
   claim_C2_amended.2.2.1 w2c 0 .plain rfl,
   claim_C2_amended.2.2.2 w2d 0 .plain rfl⟩

/-- Claim C6 counterexample.  The claim states that on every dispatch a
worker is spawned iff (maxWorkers == 0 OR liveWorkers < maxWorkers) AND
activeJobs > liveWorkers.  After traceB (a reachable schedule of two
plain submissions) the second dispatch wrapper is at its spawn check with
numWorkers = 1, numJobs = 0, qnumJobs = 1: the claimed rule evaluates to
false (activeJobs is not greater than liveWorkers), yet executing the
check spawns a worker (the source spawns whenever WorkerNum() < 2). -/
theorem claim_C6_cex :
    (run traceB (initState none agendaB)).map
        (fun s => (specSpawnRule s, WorkerNum s, JobNum s, QueuedJobNum s, s.threads.length))
      = some (false, 1, 0, 1, 5)
    ∧ (run traceBspawn (initState none agendaB)).map
        (fun s => (s.threads.length, s.threads.get? 5))
      = some (6, some (.work .spawnInc)) := by
  decide

/-- Claim C6 as amended.  On every dispatch, executing the wrapper's spawn
check starts a new worker iff liveWorkers < 2 OR (liveWorkers <
maxWorkers AND queuedJobs >= 1), with liveWorkers = WorkerNum(),
maxWorkers = MaxWorkerNum() and queuedJobs = QueuedJobNum(). -/
theorem claim_C6_amended (s : PoolState) (i : Nat) (env : JobKind)
    (h : s.threads.get? i = some (.wrap .check env)) :
    step (.tstep i) s
      = some (if WorkerNum s < 2 ∨ (WorkerNum s < MaxWorkerNum s ∧ 1 ≤ QueuedJobNum s)
          then { setThread s i (.wrap .send env) with
                 threads := s.threads.set i (.wrap .send env) ++ [.work .spawnInc] }
          else setThread s i (.wrap .send env)) := by
  simp only [step]
  rw [h]
  simp only [stepTh, stepWrap, shouldSpawn, setThread]
  by_cases h1 : WorkerNum s < 2 ∨ (WorkerNum s < MaxWorkerNum s ∧ 1 ≤ QueuedJobNum s)
  · rw [if_pos h1]
    have : (decide (WorkerNum s < 2)
        || (decide (WorkerNum s < MaxWorkerNum s) && decide (1 ≤ QueuedJobNum s))) = true := by
      rcases h1 with h1 | ⟨h1, h2⟩
      · simp [h1]
      · simp [h1, h2]
    rw [if_pos this]
  · rw [if_neg h1]
    have : (decide (WorkerNum s < 2)
        || (decide (WorkerNum s < MaxWorkerNum s) && decide (1 ≤ QueuedJobNum s))) = false := by
      push_neg at h1
      obtain ⟨h2, h3⟩ := h1
      by_cases h4 : WorkerNum s < MaxWorkerNum s <;> simp [h2, h4] <;> omega
    rw [if_neg (by simp [this])]

theorem claim_C6_amended_witness :
    step (.tstep 0) c6wstate
      = some (if WorkerNum c6wstate < 2
              ∨ (WorkerNum c6wstate < MaxWorkerNum c6wstate ∧ 1 ≤ QueuedJobNum c6wstate)
          then { setThread c6wstate 0 (.wrap .send .plain) with
                 threads := c6wstate.threads.set 0 (.wrap .send .plain) ++ [.work .spawnInc] }
          else setThread c6wstate 0 (.wrap .send .plain)) :=
  claim_C6_amended c6wstate 0 .plain rfl

/-- Claim C7 counterexample.  The claim states that a configured worker
maximum of 0 yields an unbounded pool with no ceiling ever preventing a
spawn.  New with Workers = 0 sets maxWorkers to the default 64 (the
option is taken only when it exceeds 64), and in a state with 64 live
workers and queued work the spawn condition evaluates to false: the
ceiling of 64 prevents the spawn. -/
theorem claim_C7_cex :
    newMaxWorkers (some { workers := 0, qsize := 0 }) = 64
    ∧ MaxWorkerNum c7full = 64
    ∧ QueuedJobNum c7full = 1
    ∧ shouldSpawn c7full = false := by
  decide

/-- Claim C7 as amended.  Configuring Workers = 0 (or any value up to 64)
yields maxWorkers = 64, the default ceiling, and once the observed live
worker count reaches that ceiling the spawn condition is false. -/
theorem claim_C7_amended :
    (∀ o : Options, o.workers ≤ defaultWorkers → newMaxWorkers (some o) = defaultWorkers)
    ∧ (∀ s : PoolState, MaxWorkerNum s = defaultWorkers → defaultWorkers ≤ WorkerNum s →
        shouldSpawn s = false) := by
  constructor
  · intro o h
    simp only [newMaxWorkers]
    split_ifs with hlt
    · omega
    · rfl
  · intro s h1 h2
    simp only [shouldSpawn, h1, Bool.or_eq_false_iff, Bool.and_eq_false_iff,
      decide_eq_false_iff_not, defaultWorkers] at *
    omega

theorem claim_C7_amended_witness :
    newMaxWorkers (some { workers := 0, qsize := 0 }) = defaultWorkers
    ∧ shouldSpawn c7full = false :=
  ⟨claim_C7_amended.1 { workers := 0, qsize := 0 } (by decide),
   claim_C7_amended.2 c7full rfl (by decide)⟩

/-- Claim C8 counterexample.  The claim states that WorkerNum() never exceeds
MaxWorkerNum() in any interleaving.  traceC is a schedule of 65 plain
submissions against the default ceiling of 64 in which all 65 dispatch
wrappers evaluate the spawn condition before any started worker has
executed its numWorkers increment: every check reads numWorkers = 0 and
decides to spawn, and the pool reaches WorkerNum() = 65 >
MaxWorkerNum() = 64.  (The source comments on this check: "Should be
ideally an atomic operation", accepting the race.) -/
theorem claim_C8_cex :
    (run traceC (initState none agendaC)).map
        (fun s => (WorkerNum s, MaxWorkerNum s)) = some (65, 64) := by
  decide

/-- Claim C8 as amended.  The spawn decision itself respects the ceiling: at
a dispatch whose snapshot of the counters shows at least 2 live workers
and a live-worker count at or above maxWorkers, the spawn check starts no
worker.  The global bound can still be exceeded because the check and the
started worker's numWorkers increment are not atomic (claim_C8_cex). -/
theorem claim_C8_amended (s : PoolState) (i : Nat) (env : JobKind)
    (h : s.threads.get? i = some (.wrap .check env))
    (h2 : 2 ≤ WorkerNum s) (h3 : MaxWorkerNum s ≤ WorkerNum s) :
    step (.tstep i) s = some (setThread s i (.wrap .send env)) := by
  have hs : shouldSpawn s = false := by
    simp only [shouldSpawn, Bool.or_eq_false_iff, Bool.and_eq_false_iff,
      decide_eq_false_iff_not]
    omega
  simp only [step]
  rw [h]
  simp [stepTh, stepWrap, hs]

theorem claim_C8_amended_witness :
    step (.tstep 0) c8full = some (setThread c8full 0 (.wrap .send .plain)) :=
  claim_C8_amended c8full 0 .plain rfl (by decide) (by decide)

/-- Claim C10 counterexample.  The claim states that Stop's quiescence test
cannot observe zero while a dispatched job is still running.  After the
reachable prefix traceAobs, the Stop caller has passed both reads
(program counter at the terminate send) while worker 3 is still running
the dispatched job: its JobNum() read happened before the wrapper's
numJobs increment and its QueuedJobNum() read after the wrapper's
qnumJobs decrement. -/
theorem claim_C10_cex :
    (run traceAobs (initState none agendaA)).map
        (fun s => (s.threads.get? 1, s.threads.get? 3))
      = some (some (.stopT .sendTerm), some (.work (.running (.checkError (some 7))))) := by
  decide

/-! ## Preservation of the inductive invariants -/

theorem countP_set_eq_of (p : Thread → Bool) {l : List Thread} {i : Nat} {t : Thread}
    (t' : Thread) (h : l.get? i = some t) (hp : p t = p t') :
    (l.set i t').countP p = l.countP p := by
  have := countP_set_get p l i t t' h
  rw [hp] at this
  omega

theorem countP_set_add_one (p : Thread → Bool) {l : List Thread} {i : Nat} {t : Thread}
    (t' : Thread) (h : l.get? i = some t) (h1 : p t = false) (h2 : p t' = true) :
    (l.set i t').countP p = l.countP p + 1 := by
  have := countP_set_get p l i t t' h
  rw [h1, h2] at this
  simp at this
  omega

theorem countP_set_sub_one (p : Thread → Bool) {l : List Thread} {i : Nat} {t : Thread}
    (t' : Thread) (h : l.get? i = some t) (h1 : p t = true) (h2 : p t' = false) :
    l.countP p = (l.set i t').countP p + 1 := by
  have := countP_set_get p l i t t' h
  rw [h1, h2] at this
  simp at this
  omega

theorem countP_append_one (p : Thread → Bool) (l : List Thread) (a : Thread) :
    (l ++ [a]).countP p = l.countP p + (if p a then 1 else 0) := by
  simp [List.countP_append, List.countP_cons]

/-- InvQ transfer between states whose counters, dispatcher hold, queue
length and all thread counts agree. -/
theorem invQ_of_counts {n : Nat} {s : PoolState} (hq : InvQ n s) (s' : PoolState)
    (hqn : s'.qnumJobs = s.qnumJobs) (hnj : s'.numJobs = s.numJobs)
    (hdp : dispHold s'.disp = dispHold s.disp) (hbq : s'.bufQ.length = s.bufQ.length)
    (e1 : s'.threads.countP isQSub = s.threads.countP isQSub)
    (e2 : s'.threads.countP isDA = s.threads.countP isDA)
    (e3 : s'.threads.countP isWrapPre = s.threads.countP isWrapPre)
    (e4 : s'.threads.countP isWinc = s.threads.countP isWinc)
    (e5 : s'.threads.countP isWdec = s.threads.countP isWdec)
    (e6 : s'.threads.countP isWdone = s.threads.countP isWdone)
    (e7 : s'.threads.countP isRun = s.threads.countP isRun)
    (e8 : s'.threads.countP isPost = s.threads.countP isPost)
    (e9 : s'.threads.countP isSub = s.threads.countP isSub)
    (e10 : s'.threads.countP isWork = s.threads.countP isWork)
    (e11 : s'.threads.countP isWrapPast = s.threads.countP isWrapPast) :
    InvQ n s' := by
  obtain ⟨q1, q2, q3, q4, q5⟩ := hq
  refine ⟨?_, ?_, ?_, ?_, ?_⟩
  · simp only [qCount] at q1 ⊢
    rw [hqn, hdp, hbq, e1, e3, e4, e5]
    exact q1
  · rw [hnj, e4, e7, e8]
    exact q2
  · rw [e2, hdp, hbq, e3, e4, e5, e6]
    exact q3
  · rw [e10, e11]
    exact q4
  · rw [e9]
    exact q5

/-- InvQ preservation for a step that replaces thread i without changing any
of the counting predicates or the counter fields. -/
theorem invQ_set_congr {n : Nat} {s : PoolState} {i : Nat} {t : Thread}
    (hq : InvQ n s) (hget : s.threads.get? i = some t) (t' : Thread) (s' : PoolState)
    (hth : s'.threads = s.threads.set i t')
    (hqn : s'.qnumJobs = s.qnumJobs) (hnj : s'.numJobs = s.numJobs)
    (hdp : dispHold s'.disp = dispHold s.disp) (hbq : s'.bufQ.length = s.bufQ.length)
    (h1 : isQSub t = isQSub t') (h2 : isDA t = isDA t')
    (h3 : isWrapPre t = isWrapPre t') (h4 : isWinc t = isWinc t')
    (h5 : isWdec t = isWdec t') (h6 : isWdone t = isWdone t')
    (h7 : isRun t = isRun t') (h8 : isPost t = isPost t')
    (h9 : isSub t = isSub t') (h10 : isWork t = isWork t')
    (h11 : isWrapPast t = isWrapPast t') :
    InvQ n s' :=
  invQ_of_counts hq s' hqn hnj hdp hbq
    (by rw [hth]; exact countP_set_eq_of isQSub t' hget h1)
    (by rw [hth]; exact countP_set_eq_of isDA t' hget h2)
    (by rw [hth]; exact countP_set_eq_of isWrapPre t' hget h3)
    (by rw [hth]; exact countP_set_eq_of isWinc t' hget h4)
    (by rw [hth]; exact countP_set_eq_of isWdec t' hget h5)
    (by rw [hth]; exact countP_set_eq_of isWdone t' hget h6)
    (by rw [hth]; exact countP_set_eq_of isRun t' hget h7)
    (by rw [hth]; exact countP_set_eq_of isPost t' hget h8)
    (by rw [hth]; exact countP_set_eq_of isSub t' hget h9)
    (by rw [hth]; exact countP_set_eq_of isWork t' hget h10)
    (by rw [hth]; exact countP_set_eq_of isWrapPast t' hget h11)

/-- InvC transfer between states whose teardown-relevant observations agree. -/
theorem invC_of_counts {s : PoolState} (hc : InvC s) (s' : PoolState)
    (hW : s'.threads.countP isWinner = s.threads.countP isWinner)
    (hD : s'.threads.countP isDoneS = s.threads.countP isDoneS)
    (hdB : dPastB s'.disp = dPastB s.disp) (hdW : dPastW s'.disp = dPastW s.disp)
    (hdE : dPastE s'.disp = dPastE s.disp) (hdR : dPastR s'.disp = dPastR s.disp)
    (hstop : s'.stopping = s.stopping)
    (k1 : s'.closeBufCount = s.closeBufCount)
    (k2 : s'.closeWorkerQCount = s.closeWorkerQCount)
    (k3 : s'.closeErrCount = s.closeErrCount)
    (k4 : s'.closeResCount = s.closeResCount)
    (k5 : s'.closeJobQCount = s.closeJobQCount) :
    InvC s' := by
  obtain ⟨c1, c2, c3, c4, c5, c6, c7⟩ := hc
  refine ⟨?_, ?_, ?_, ?_, ?_, ?_, ?_⟩
  · rw [k1, hdB]; exact c1
  · rw [k2, hdW]; exact c2
  · rw [k3, hdE]; exact c3
  · rw [k4, hdR]; exact c4
  · rw [k5, hD]; exact c5
  · rw [hW]; exact c6
  · rw [hstop, hW]; exact c7

/-- InvC preservation for a step that replaces thread i without changing the
winner or close predicates, the dispatcher counter, the stopping flag or
the close counts. -/
theorem invC_set_congr {s : PoolState} {i : Nat} {t : Thread}
    (hc : InvC s) (hget : s.threads.get? i = some t) (t' : Thread) (s' : PoolState)
    (hth : s'.threads = s.threads.set i t')
    (hdB : dPastB s'.disp = dPastB s.disp) (hdW : dPastW s'.disp = dPastW s.disp)
    (hdE : dPastE s'.disp = dPastE s.disp) (hdR : dPastR s'.disp = dPastR s.disp)
    (hstop : s'.stopping = s.stopping)
    (k1 : s'.closeBufCount = s.closeBufCount)
    (k2 : s'.closeWorkerQCount = s.closeWorkerQCount)
    (k3 : s'.closeErrCount = s.closeErrCount)
    (k4 : s'.closeResCount = s.closeResCount)
    (k5 : s'.closeJobQCount = s.closeJobQCount)
    (h1 : isWinner t = isWinner t') (h2 : isDoneS t = isDoneS t') :
    InvC s' :=
  invC_of_counts hc s'
    (by rw [hth]; exact countP_set_eq_of isWinner t' hget h1)
    (by rw [hth]; exact countP_set_eq_of isDoneS t' hget h2)
    hdB hdW hdE hdR hstop k1 k2 k3 k4 k5

theorem countP_append_of_false (p : Thread → Bool) (l : List Thread) (a : Thread)
    (ha : p a = false) : (l ++ [a]).countP p = l.countP p := by
  simp [countP_append_one, ha]

theorem countP_append_of_true (p : Thread → Bool) (l : List Thread) (a : Thread)
    (ha : p a = true) : (l ++ [a]).countP p = l.countP p + 1 := by
  simp [countP_append_one, ha]

/-- Every transition preserves the job-counter invariant. -/
theorem invQ_step {n : Nat} {l : Label} {s s' : PoolState}
    (hq : InvQ n s) (h : step l s = some s') : InvQ n s' := by
  cases l with
  | tstep i =>
    rcases hget : s.threads.get? i with _ | t
    · simp only [step] at h
      rw [hget] at h
      simp at h
    · simp only [step] at h
      rw [hget] at h
      cases t with
      | sub pc env =>
        cases pc with
        | checkStop =>
          simp only [stepTh, stepSub] at h
          split at h
          · obtain rfl := Option.some.inj h
            exact invQ_set_congr hq hget _ _ rfl rfl rfl rfl rfl rfl rfl rfl rfl rfl rfl
              rfl rfl rfl rfl rfl
          · obtain rfl := Option.some.inj h
            exact invQ_set_congr hq hget _ _ rfl rfl rfl rfl rfl rfl rfl rfl rfl rfl rfl
              rfl rfl rfl rfl rfl
        | incQ =>
          simp only [stepTh, stepSub] at h
          obtain rfl := Option.some.inj h
          obtain ⟨q1, q2, q3, q4, q5⟩ := hq
          have aQ := countP_set_add_one isQSub (Thread.sub .sendJob env) hget rfl rfl
          have aDA := countP_set_eq_of isDA (Thread.sub .sendJob env) hget rfl
          have aPre := countP_set_eq_of isWrapPre (Thread.sub .sendJob env) hget rfl
          have aWinc := countP_set_eq_of isWinc (Thread.sub .sendJob env) hget rfl
          have aWdec := countP_set_eq_of isWdec (Thread.sub .sendJob env) hget rfl
          have aWdone := countP_set_eq_of isWdone (Thread.sub .sendJob env) hget rfl
          have aRun := countP_set_eq_of isRun (Thread.sub .sendJob env) hget rfl
          have aPost := countP_set_eq_of isPost (Thread.sub .sendJob env) hget rfl
          have aSub := countP_set_eq_of isSub (Thread.sub .sendJob env) hget rfl
          have aWork := countP_set_eq_of isWork (Thread.sub .sendJob env) hget rfl
          have aPast := countP_set_eq_of isWrapPast (Thread.sub .sendJob env) hget rfl
          simp only [qCount, U32] at q1 q2 q3
          refine ⟨?_, ?_, ?_, ?_, ?_⟩ <;>
            simp only [qCount, setThread, wrapInc, U32] <;> omega
        | sendJob =>
          simp only [stepTh, stepSub] at h
          split at h
          · obtain rfl := Option.some.inj h
            exact invQ_set_congr hq hget _ _ rfl rfl rfl rfl rfl rfl rfl rfl rfl rfl rfl
              rfl rfl rfl rfl rfl
          · simp at h
        | doneAccepted => simp [stepTh, stepSub] at h
        | doneRejected => simp [stepTh, stepSub] at h
        | pcPanicked => simp [stepTh, stepSub] at h
      | wrap pc env =>
        cases pc with
        | check =>
          simp only [stepTh, stepWrap] at h
          split at h
          · obtain rfl := Option.some.inj h
            obtain ⟨q1, q2, q3, q4, q5⟩ := hq
            have aQ := countP_set_eq_of isQSub (Thread.wrap .send env) hget rfl
            have aDA := countP_set_eq_of isDA (Thread.wrap .send env) hget rfl
            have aPre := countP_set_eq_of isWrapPre (Thread.wrap .send env) hget rfl
            have aWinc := countP_set_eq_of isWinc (Thread.wrap .send env) hget rfl
            have aWdec := countP_set_eq_of isWdec (Thread.wrap .send env) hget rfl
            have aWdone := countP_set_eq_of isWdone (Thread.wrap .send env) hget rfl
            have aRun := countP_set_eq_of isRun (Thread.wrap .send env) hget rfl
            have aPost := countP_set_eq_of isPost (Thread.wrap .send env) hget rfl
            have aSub := countP_set_eq_of isSub (Thread.wrap .send env) hget rfl
            have aWork := countP_set_eq_of isWork (Thread.wrap .send env) hget rfl
            have aPast := countP_set_add_one isWrapPast (Thread.wrap .send env) hget rfl rfl
            have bQ := countP_append_of_false isQSub
              (s.threads.set i (Thread.wrap .send env)) (Thread.work .spawnInc) rfl
            have bDA := countP_append_of_false isDA
              (s.threads.set i (Thread.wrap .send env)) (Thread.work .spawnInc) rfl
            have bPre := countP_append_of_false isWrapPre
              (s.threads.set i (Thread.wrap .send env)) (Thread.work .spawnInc) rfl
            have bWinc := countP_append_of_false isWinc
              (s.threads.set i (Thread.wrap .send env)) (Thread.work .spawnInc) rfl
            have bWdec := countP_append_of_false isWdec
              (s.threads.set i (Thread.wrap .send env)) (Thread.work .spawnInc) rfl
            have bWdone := countP_append_of_false isWdone
              (s.threads.set i (Thread.wrap .send env)) (Thread.work .spawnInc) rfl
            have bRun := countP_append_of_false isRun
              (s.threads.set i (Thread.wrap .send env)) (Thread.work .spawnInc) rfl
            have bPost := countP_append_of_false isPost
              (s.threads.set i (Thread.wrap .send env)) (Thread.work .spawnInc) rfl
            have bSub := countP_append_of_false isSub
              (s.threads.set i (Thread.wrap .send env)) (Thread.work .spawnInc) rfl
            have bWork := countP_append_of_true isWork
              (s.threads.set i (Thread.wrap .send env)) (Thread.work .spawnInc) rfl
            have bPast := countP_append_of_false isWrapPast
              (s.threads.set i (Thread.wrap .send env)) (Thread.work .spawnInc) rfl
            simp only [qCount, U32] at q1 q2 q3
            refine ⟨?_, ?_, ?_, ?_, ?_⟩ <;>
              simp only [qCount, setThread, U32] <;> omega
          · obtain rfl := Option.some.inj h
            obtain ⟨q1, q2, q3, q4, q5⟩ := hq
            have aQ := countP_set_eq_of isQSub (Thread.wrap .send env) hget rfl
            have aDA := countP_set_eq_of isDA (Thread.wrap .send env) hget rfl
            have aPre := countP_set_eq_of isWrapPre (Thread.wrap .send env) hget rfl
            have aWinc := countP_set_eq_of isWinc (Thread.wrap .send env) hget rfl
            have aWdec := countP_set_eq_of isWdec (Thread.wrap .send env) hget rfl
            have aWdone := countP_set_eq_of isWdone (Thread.wrap .send env) hget rfl
            have aRun := countP_set_eq_of isRun (Thread.wrap .send env) hget rfl
            have aPost := countP_set_eq_of isPost (Thread.wrap .send env) hget rfl
            have aSub := countP_set_eq_of isSub (Thread.wrap .send env) hget rfl
            have aWork := countP_set_eq_of isWork (Thread.wrap .send env) hget rfl
            have aPast := countP_set_add_one isWrapPast (Thread.wrap .send env) hget rfl rfl
            simp only [qCount, U32] at q1 q2 q3
            refine ⟨?_, ?_, ?_, ?_, ?_⟩ <;>
              simp only [qCount, setThread, U32] <;> omega
        | send =>
          simp only [stepTh, stepWrap] at h
          split at h
          · obtain rfl := Option.some.inj h
            exact invQ_set_congr hq hget _ _ rfl rfl rfl rfl rfl rfl rfl rfl rfl rfl rfl
              rfl rfl rfl rfl rfl
          · simp at h
        | inc =>
          simp only [stepTh, stepWrap] at h
          obtain rfl := Option.some.inj h
          obtain ⟨q1, q2, q3, q4, q5⟩ := hq
          have aQ := countP_set_eq_of isQSub (Thread.wrap .dec env) hget rfl
          have aDA := countP_set_eq_of isDA (Thread.wrap .dec env) hget rfl
          have aPre := countP_set_eq_of isWrapPre (Thread.wrap .dec env) hget rfl
          have aWinc := countP_set_sub_one isWinc (Thread.wrap .dec env) hget rfl rfl
          have aWdec := countP_set_add_one isWdec (Thread.wrap .dec env) hget rfl rfl
          have aWdone := countP_set_eq_of isWdone (Thread.wrap .dec env) hget rfl
          have aRun := countP_set_eq_of isRun (Thread.wrap .dec env) hget rfl
          have aPost := countP_set_eq_of isPost (Thread.wrap .dec env) hget rfl
          have aSub := countP_set_eq_of isSub (Thread.wrap .dec env) hget rfl
          have aWork := countP_set_eq_of isWork (Thread.wrap .dec env) hget rfl
          have aPast := countP_set_eq_of isWrapPast (Thread.wrap .dec env) hget rfl
          simp only [qCount, U32] at q1 q2 q3
          refine ⟨?_, ?_, ?_, ?_, ?_⟩ <;>
            simp only [qCount, setThread, wrapInc, U32] <;> omega
        | dec =>
          simp only [stepTh, stepWrap] at h
          obtain rfl := Option.some.inj h
          obtain ⟨q1, q2, q3, q4, q5⟩ := hq
          have aQ := countP_set_eq_of isQSub (Thread.wrap .done env) hget rfl
          have aDA := countP_set_eq_of isDA (Thread.wrap .done env) hget rfl
          have aPre := countP_set_eq_of isWrapPre (Thread.wrap .done env) hget rfl
          have aWinc := countP_set_eq_of isWinc (Thread.wrap .done env) hget rfl
          have aWdec := countP_set_sub_one isWdec (Thread.wrap .done env) hget rfl rfl
          have aWdone := countP_set_add_one isWdone (Thread.wrap .done env) hget rfl rfl
          have aRun := countP_set_eq_of isRun (Thread.wrap .done env) hget rfl
          have aPost := countP_set_eq_of isPost (Thread.wrap .done env) hget rfl
          have aSub := countP_set_eq_of isSub (Thread.wrap .done env) hget rfl
          have aWork := countP_set_eq_of isWork (Thread.wrap .done env) hget rfl
          have aPast := countP_set_eq_of isWrapPast (Thread.wrap .done env) hget rfl
          simp only [qCount, U32] at q1 q2 q3
          refine ⟨?_, ?_, ?_, ?_, ?_⟩ <;>
            simp only [qCount, setThread, wrapDec, U32] <;> omega
        | done => simp [stepTh, stepWrap] at h
        | pcPanicked => simp [stepTh, stepWrap] at h
      | work pc =>
        cases pc with
        | spawnInc =>
          simp only [stepTh, stepWork] at h
          obtain rfl := Option.some.inj h
          exact invQ_set_congr hq hget _ _ rfl rfl rfl rfl rfl rfl rfl rfl rfl rfl rfl
            rfl rfl rfl rfl rfl
        | idle => simp [stepTh, stepWork] at h
        | running env =>
          simp only [stepTh, stepWork] at h
          obtain rfl := Option.some.inj h
          obtain ⟨q1, q2, q3, q4, q5⟩ := hq
          have aQ := countP_set_eq_of isQSub (Thread.work .decJob) hget rfl
          have aDA := countP_set_eq_of isDA (Thread.work .decJob) hget rfl
          have aPre := countP_set_eq_of isWrapPre (Thread.work .decJob) hget rfl
          have aWinc := countP_set_eq_of isWinc (Thread.work .decJob) hget rfl
          have aWdec := countP_set_eq_of isWdec (Thread.work .decJob) hget rfl
          have aWdone := countP_set_eq_of isWdone (Thread.work .decJob) hget rfl
          have aRun := countP_set_sub_one isRun (Thread.work .decJob) hget rfl rfl
          have aPost := countP_set_add_one isPost (Thread.work .decJob) hget rfl rfl
          have aSub := countP_set_eq_of isSub (Thread.work .decJob) hget rfl
          have aWork := countP_set_eq_of isWork (Thread.work .decJob) hget rfl
          have aPast := countP_set_eq_of isWrapPast (Thread.work .decJob) hget rfl
          simp only [qCount, U32] at q1 q2 q3
          refine ⟨?_, ?_, ?_, ?_, ?_⟩ <;>
            simp only [qCount, setThread, U32] <;> omega
        | decJob =>
          simp only [stepTh, stepWork] at h
          obtain rfl := Option.some.inj h
          obtain ⟨q1, q2, q3, q4, q5⟩ := hq
          have aQ := countP_set_eq_of isQSub (Thread.work .idle) hget rfl
          have aDA := countP_set_eq_of isDA (Thread.work .idle) hget rfl
          have aPre := countP_set_eq_of isWrapPre (Thread.work .idle) hget rfl
          have aWinc := countP_set_eq_of isWinc (Thread.work .idle) hget rfl
          have aWdec := countP_set_eq_of isWdec (Thread.work .idle) hget rfl
          have aWdone := countP_set_eq_of isWdone (Thread.work .idle) hget rfl
          have aRun := countP_set_eq_of isRun (Thread.work .idle) hget rfl
          have aPost := countP_set_sub_one isPost (Thread.work .idle) hget rfl rfl
          have aSub := countP_set_eq_of isSub (Thread.work .idle) hget rfl
          have aWork := countP_set_eq_of isWork (Thread.work .idle) hget rfl
          have aPast := countP_set_eq_of isWrapPast (Thread.work .idle) hget rfl
          simp only [qCount, U32] at q1 q2 q3
          refine ⟨?_, ?_, ?_, ?_, ?_⟩ <;>
            simp only [qCount, setThread, wrapDec, U32] <;> omega
        | exitDec =>
          simp only [stepTh, stepWork] at h
          obtain rfl := Option.some.inj h
          exact invQ_set_congr hq hget _ _ rfl rfl rfl rfl rfl rfl rfl rfl rfl rfl rfl
            rfl rfl rfl rfl rfl
        | deadW => simp [stepTh, stepWork] at h
      | stopT pc =>
        cases pc with
        | cas =>
          simp only [stepTh, stepStop] at h
          split at h
          · obtain rfl := Option.some.inj h
            exact invQ_set_congr hq hget _ _ rfl rfl rfl rfl rfl rfl rfl rfl rfl rfl rfl
              rfl rfl rfl rfl rfl
          · obtain rfl := Option.some.inj h
            exact invQ_set_congr hq hget _ _ rfl rfl rfl rfl rfl rfl rfl rfl rfl rfl rfl
              rfl rfl rfl rfl rfl
        | read1 =>
          simp only [stepTh, stepStop] at h
          split at h
          · obtain rfl := Option.some.inj h
            exact invQ_set_congr hq hget _ _ rfl rfl rfl rfl rfl rfl rfl rfl rfl rfl rfl
              rfl rfl rfl rfl rfl
          · obtain rfl := Option.some.inj h
            exact invQ_set_congr hq hget _ _ rfl rfl rfl rfl rfl rfl rfl rfl rfl rfl rfl
              rfl rfl rfl rfl rfl
        | read2 =>
          simp only [stepTh, stepStop] at h
          split at h
          · obtain rfl := Option.some.inj h
            exact invQ_set_congr hq hget _ _ rfl rfl rfl rfl rfl rfl rfl rfl rfl rfl rfl
              rfl rfl rfl rfl rfl
          · obtain rfl := Option.some.inj h
            exact invQ_set_congr hq hget _ _ rfl rfl rfl rfl rfl rfl rfl rfl rfl rfl rfl
              rfl rfl rfl rfl rfl
        | sendTerm => simp [stepTh, stepStop] at h
        | closeJobQ =>
          simp only [stepTh, stepStop] at h
          obtain rfl := Option.some.inj h
          exact invQ_set_congr hq hget _ _ rfl rfl rfl rfl rfl rfl rfl rfl rfl rfl rfl
            rfl rfl rfl rfl rfl
        | doneS => simp [stepTh, stepStop] at h
        | doneAlready => simp [stepTh, stepStop] at h
  | jobQSend i =>
    simp only [step] at h
    rcases hget : s.threads.get? i with _ | t
    · rw [hget] at h
      simp at h
    · rw [hget] at h
      cases t with
      | sub pc env =>
        cases pc with
        | sendJob =>
          rcases hd : s.disp with _ | env2 | _ | _ | _ | _ | _ | _ <;> rw [hd] at h <;>
            try simp at h
          obtain ⟨hclosed, rfl⟩ := h
          obtain ⟨q1, q2, q3, q4, q5⟩ := hq
          have aQ := countP_set_sub_one isQSub (Thread.sub .doneAccepted env) hget rfl rfl
          have aDA := countP_set_add_one isDA (Thread.sub .doneAccepted env) hget rfl rfl
          have aPre := countP_set_eq_of isWrapPre (Thread.sub .doneAccepted env) hget rfl
          have aWinc := countP_set_eq_of isWinc (Thread.sub .doneAccepted env) hget rfl
          have aWdec := countP_set_eq_of isWdec (Thread.sub .doneAccepted env) hget rfl
          have aWdone := countP_set_eq_of isWdone (Thread.sub .doneAccepted env) hget rfl
          have aRun := countP_set_eq_of isRun (Thread.sub .doneAccepted env) hget rfl
          have aPost := countP_set_eq_of isPost (Thread.sub .doneAccepted env) hget rfl
          have aSub := countP_set_eq_of isSub (Thread.sub .doneAccepted env) hget rfl
          have aWork := countP_set_eq_of isWork (Thread.sub .doneAccepted env) hget rfl
          have aPast := countP_set_eq_of isWrapPast (Thread.sub .doneAccepted env) hget rfl
          simp only [qCount, U32] at q1 q2 q3
          rw [hd] at q1 q3
          simp only [dispHold] at q1 q3
          refine ⟨?_, ?_, ?_, ?_, ?_⟩ <;>
            simp only [qCount, setThread, dispHold, U32] <;> omega
        | checkStop => simp at h
        | incQ => simp at h
        | doneAccepted => simp at h
        | doneRejected => simp at h
        | pcPanicked => simp at h
      | wrap pc env => simp at h
      | work pc => simp at h
      | stopT pc => simp at h
  | termSend i =>
    simp only [step] at h
    rcases hget : s.threads.get? i with _ | t
    · rw [hget] at h
      simp at h
    · rw [hget] at h
      cases t with
      | stopT pc =>
        cases pc with
        | sendTerm =>
          rcases hd : s.disp with _ | env2 | _ | _ | _ | _ | _ | _ <;> rw [hd] at h <;>
            try simp at h
          obtain rfl := h
          refine invQ_set_congr hq hget _ _ rfl rfl rfl ?_ rfl rfl rfl rfl rfl rfl rfl
            rfl rfl rfl rfl rfl
          simp [hd, dispHold]
        | cas => simp at h
        | read1 => simp at h
        | read2 => simp at h
        | closeJobQ => simp at h
        | doneS => simp at h
        | doneAlready => simp at h
      | sub pc env => simp at h
      | wrap pc env => simp at h
      | work pc => simp at h
  | handoff i j =>
    simp only [step] at h
    rcases hget : s.threads.get? i with _ | t
    · rw [hget] at h
      simp at h
    · rw [hget] at h
      rcases hgetj : s.threads.get? j with _ | t2
      · rw [hgetj] at h
        cases t <;> simp at h
      · rw [hgetj] at h
        cases t with
        | wrap pc env =>
          cases pc with
          | send =>
            cases t2 with
            | work pc2 =>
              cases pc2 with
              | idle =>
                simp at h
                obtain ⟨hclosed, rfl⟩ := h
                obtain ⟨q1, q2, q3, q4, q5⟩ := hq
                have hij : i ≠ j := by
                  intro hij
                  rw [hij, hgetj] at hget
                  simp at hget
                have hgetj2 : (s.threads.set i (Thread.wrap .inc env)).get? j
                  = some (Thread.work .idle) := by
                  rw [get_set_ne _ _ _ _ hij]
                  exact hgetj
                have aQ := countP_set_eq_of isQSub (Thread.wrap .inc env) hget rfl
                have aDA := countP_set_eq_of isDA (Thread.wrap .inc env) hget rfl
                have aPre := countP_set_sub_one isWrapPre (Thread.wrap .inc env) hget rfl rfl
                have aWinc := countP_set_add_one isWinc (Thread.wrap .inc env) hget rfl rfl
                have aWdec := countP_set_eq_of isWdec (Thread.wrap .inc env) hget rfl
                have aWdone := countP_set_eq_of isWdone (Thread.wrap .inc env) hget rfl
                have aRun := countP_set_eq_of isRun (Thread.wrap .inc env) hget rfl
                have aPost := countP_set_eq_of isPost (Thread.wrap .inc env) hget rfl
                have aSub := countP_set_eq_of isSub (Thread.wrap .inc env) hget rfl
                have aWork := countP_set_eq_of isWork (Thread.wrap .inc env) hget rfl
                have aPast := countP_set_eq_of isWrapPast (Thread.wrap .inc env) hget rfl
                have bQ := countP_set_eq_of isQSub (Thread.work (.running env)) hgetj2 rfl
                have bDA := countP_set_eq_of isDA (Thread.work (.running env)) hgetj2 rfl
                have bPre := countP_set_eq_of isWrapPre (Thread.work (.running env)) hgetj2 rfl
                have bWinc := countP_set_eq_of isWinc (Thread.work (.running env)) hgetj2 rfl
                have bWdec := countP_set_eq_of isWdec (Thread.work (.running env)) hgetj2 rfl
                have bWdone := countP_set_eq_of isWdone (Thread.work (.running env)) hgetj2 rfl
                have bRun := countP_set_add_one isRun (Thread.work (.running env)) hgetj2 rfl rfl
                have bPost := countP_set_eq_of isPost (Thread.work (.running env)) hgetj2 rfl
                have bSub := countP_set_eq_of isSub (Thread.work (.running env)) hgetj2 rfl
                have bWork := countP_set_eq_of isWork (Thread.work (.running env)) hgetj2 rfl
                have bPast := countP_set_eq_of isWrapPast (Thread.work (.running env)) hgetj2 rfl
                simp only [qCount, U32] at q1 q2 q3
                refine ⟨?_, ?_, ?_, ?_, ?_⟩ <;>
                  simp only [qCount, U32] <;> omega
              | spawnInc => simp at h
              | running env2 => simp at h
              | decJob => simp at h
              | exitDec => simp at h
              | deadW => simp at h
            | sub pc2 env2 => simp at h
            | wrap pc2 env2 => simp at h
            | stopT pc2 => simp at h
          | check => simp at h
          | inc => simp at h
          | dec => simp at h
          | done => simp at h
          | pcPanicked => simp at h
        | sub pc env => simp at h
        | work pc => simp at h
        | stopT pc => simp at h
  | timer i =>
    simp only [step] at h
    rcases hget : s.threads.get? i with _ | t
    · rw [hget] at h
      simp at h
    · rw [hget] at h
      cases t with
      | work pc =>
        cases pc with
        | idle =>
          simp only [timerTh] at h
          split at h
          · obtain rfl := Option.some.inj h
            exact invQ_set_congr hq hget _ _ rfl rfl rfl rfl rfl rfl rfl rfl rfl rfl rfl
              rfl rfl rfl rfl rfl
          · obtain rfl := Option.some.inj h
            exact hq
        | spawnInc => simp [timerTh] at h
        | running env => simp [timerTh] at h
        | decJob => simp [timerTh] at h
        | exitDec => simp [timerTh] at h
        | deadW => simp [timerTh] at h
      | sub pc env => simp [timerTh] at h
      | wrap pc env => simp [timerTh] at h
      | stopT pc => simp [timerTh] at h
  | closedRecv i =>
    simp only [step] at h
    rcases hget : s.threads.get? i with _ | t
    · rw [hget] at h
      simp at h
    · rw [hget] at h
      cases t with
      | work pc =>
        cases pc with
        | idle =>
          simp only [closedRecvTh] at h
          split at h
          · obtain rfl := Option.some.inj h
            exact invQ_set_congr hq hget _ _ rfl rfl rfl rfl rfl rfl rfl rfl rfl rfl rfl
              rfl rfl rfl rfl rfl
          · simp at h
        | spawnInc => simp [closedRecvTh] at h
        | running env => simp [closedRecvTh] at h
        | decJob => simp [closedRecvTh] at h
        | exitDec => simp [closedRecvTh] at h
        | deadW => simp [closedRecvTh] at h
      | sub pc env => simp [closedRecvTh] at h
      | wrap pc env => simp [closedRecvTh] at h
      | stopT pc => simp [closedRecvTh] at h
  | dstep =>
    simp only [step] at h
    rcases hd : s.disp with _ | env | _ | _ | _ | _ | _ | _ <;> rw [hd] at h
    · simp [dispatchStep] at h
    · simp only [dispatchStep] at h
      split at h
      · obtain rfl := Option.some.inj h
        obtain ⟨q1, q2, q3, q4, q5⟩ := hq
        simp only [qCount, U32] at q1 q2 q3
        rw [hd] at q1 q3
        simp only [dispHold] at q1 q3
        refine ⟨?_, ?_, ?_, ?_, ?_⟩ <;>
          simp only [qCount, dispHold, U32, List.length_append, List.length_cons,
            List.length_nil] <;> omega
      · simp at h
    · simp only [dispatchStep] at h
      rcases hbq : s.bufQ with _ | ⟨env, rest⟩ <;> rw [hbq] at h
      · simp at h
      · obtain rfl := Option.some.inj h
        obtain ⟨q1, q2, q3, q4, q5⟩ := hq
        simp only [qCount, U32] at q1 q2 q3
        rw [hd] at q1 q3
        rw [hbq] at q1 q3
        have bQ := countP_append_of_false isQSub s.threads (Thread.wrap .check env) rfl
        have bDA := countP_append_of_false isDA s.threads (Thread.wrap .check env) rfl
        have bPre := countP_append_of_true isWrapPre s.threads (Thread.wrap .check env) rfl
        have bWinc := countP_append_of_false isWinc s.threads (Thread.wrap .check env) rfl
        have bWdec := countP_append_of_false isWdec s.threads (Thread.wrap .check env) rfl
        have bWdone := countP_append_of_false isWdone s.threads (Thread.wrap .check env) rfl
        have bRun := countP_append_of_false isRun s.threads (Thread.wrap .check env) rfl
        have bPost := countP_append_of_false isPost s.threads (Thread.wrap .check env) rfl
        have bSub := countP_append_of_false isSub s.threads (Thread.wrap .check env) rfl
        have bWork := countP_append_of_false isWork s.threads (Thread.wrap .check env) rfl
        have bPast := countP_append_of_false isWrapPast s.threads (Thread.wrap .check env) rfl
        simp only [dispHold, List.length_cons] at q1 q3
        refine ⟨?_, ?_, ?_, ?_, ?_⟩ <;>
          simp only [qCount, dispHold, U32] <;> omega
    · simp only [dispatchStep] at h
      obtain rfl := Option.some.inj h
      refine invQ_of_counts hq _ rfl rfl ?_ rfl rfl rfl rfl rfl rfl rfl rfl rfl rfl rfl rfl
      simp [hd, dispHold]
    · simp only [dispatchStep] at h
      obtain rfl := Option.some.inj h
      refine invQ_of_counts hq _ rfl rfl ?_ rfl rfl rfl rfl rfl rfl rfl rfl rfl rfl rfl rfl
      simp [hd, dispHold]
    · simp only [dispatchStep] at h
      obtain rfl := Option.some.inj h
      refine invQ_of_counts hq _ rfl rfl ?_ rfl rfl rfl rfl rfl rfl rfl rfl rfl rfl rfl rfl
      simp [hd, dispHold]
    · simp only [dispatchStep] at h
      obtain rfl := Option.some.inj h
      refine invQ_of_counts hq _ rfl rfl ?_ rfl rfl rfl rfl rfl rfl rfl rfl rfl rfl rfl rfl
      simp [hd, dispHold]
    · simp [dispatchStep] at h

/-- Every transition preserves the teardown invariant. -/
theorem invC_step {l : Label} {s s' : PoolState}
    (hc : InvC s) (h : step l s = some s') : InvC s' := by
  cases l with
  | tstep i =>
    rcases hget : s.threads.get? i with _ | t
    · simp only [step] at h
      rw [hget] at h
      simp at h
    · simp only [step] at h
      rw [hget] at h
      cases t with
      | sub pc env =>
        cases pc with
        | checkStop =>
          simp only [stepTh, stepSub] at h
          split at h
          · obtain rfl := Option.some.inj h
            exact invC_set_congr hc hget _ _ rfl rfl rfl rfl rfl rfl rfl rfl rfl rfl rfl
              rfl rfl
          · obtain rfl := Option.some.inj h
            exact invC_set_congr hc hget _ _ rfl rfl rfl rfl rfl rfl rfl rfl rfl rfl rfl
              rfl rfl
        | incQ =>
          simp only [stepTh, stepSub] at h
          obtain rfl := Option.some.inj h
          exact invC_set_congr hc hget _ _ rfl rfl rfl rfl rfl rfl rfl rfl rfl rfl rfl
            rfl rfl
        | sendJob =>
          simp only [stepTh, stepSub] at h
          split at h
          · obtain rfl := Option.some.inj h
            exact invC_set_congr hc hget _ _ rfl rfl rfl rfl rfl rfl rfl rfl rfl rfl rfl
              rfl rfl
          · simp at h
        | doneAccepted => simp [stepTh, stepSub] at h
        | doneRejected => simp [stepTh, stepSub] at h
        | pcPanicked => simp [stepTh, stepSub] at h
      | wrap pc env =>
        cases pc with
        | check =>
          simp only [stepTh, stepWrap] at h
          split at h
          · obtain rfl := Option.some.inj h
            have aW := countP_set_eq_of isWinner (Thread.wrap .send env) hget rfl
            have aD := countP_set_eq_of isDoneS (Thread.wrap .send env) hget rfl
            have bW := countP_append_of_false isWinner
              (s.threads.set i (Thread.wrap .send env)) (Thread.work .spawnInc) rfl
            have bD := countP_append_of_false isDoneS
              (s.threads.set i (Thread.wrap .send env)) (Thread.work .spawnInc) rfl
            refine invC_of_counts hc _ ?_ ?_ rfl rfl rfl rfl rfl rfl rfl rfl rfl rfl
            · simp only [setThread]
              rw [bW, aW]
            · simp only [setThread]
              rw [bD, aD]
          · obtain rfl := Option.some.inj h
            exact invC_set_congr hc hget _ _ rfl rfl rfl rfl rfl rfl rfl rfl rfl rfl rfl
              rfl rfl
        | send =>
          simp only [stepTh, stepWrap] at h
          split at h
          · obtain rfl := Option.some.inj h
            exact invC_set_congr hc hget _ _ rfl rfl rfl rfl rfl rfl rfl rfl rfl rfl rfl
              rfl rfl
          · simp at h
        | inc =>
          simp only [stepTh, stepWrap] at h
          obtain rfl := Option.some.inj h
          exact invC_set_congr hc hget _ _ rfl rfl rfl rfl rfl rfl rfl rfl rfl rfl rfl
            rfl rfl
        | dec =>
          simp only [stepTh, stepWrap] at h
          obtain rfl := Option.some.inj h
          exact invC_set_congr hc hget _ _ rfl rfl rfl rfl rfl rfl rfl rfl rfl rfl rfl
            rfl rfl
        | done => simp [stepTh, stepWrap] at h
        | pcPanicked => simp [stepTh, stepWrap] at h
      | work pc =>
        cases pc with
        | spawnInc =>
          simp only [stepTh, stepWork] at h
          obtain rfl := Option.some.inj h
          exact invC_set_congr hc hget _ _ rfl rfl rfl rfl rfl rfl rfl rfl rfl rfl rfl
            rfl rfl
        | idle => simp [stepTh, stepWork] at h
        | running env =>
          simp only [stepTh, stepWork] at h
          obtain rfl := Option.some.inj h
          exact invC_set_congr hc hget _ _ rfl rfl rfl rfl rfl rfl rfl rfl rfl rfl rfl
            rfl rfl
        | decJob =>
          simp only [stepTh, stepWork] at h
          obtain rfl := Option.some.inj h
          exact invC_set_congr hc hget _ _ rfl rfl rfl rfl rfl rfl rfl rfl rfl rfl rfl
            rfl rfl
        | exitDec =>
          simp only [stepTh, stepWork] at h
          obtain rfl := Option.some.inj h
          exact invC_set_congr hc hget _ _ rfl rfl rfl rfl rfl rfl rfl rfl rfl rfl rfl
            rfl rfl
        | deadW => simp [stepTh, stepWork] at h
      | stopT pc =>
        cases pc with
        | cas =>
          simp only [stepTh, stepStop] at h
          split at h
          · obtain rfl := Option.some.inj h
            exact invC_set_congr hc hget _ _ rfl rfl rfl rfl rfl rfl rfl rfl rfl rfl rfl
              rfl rfl
          · rename_i hst
            obtain rfl := Option.some.inj h
            obtain ⟨c1, c2, c3, c4, c5, c6, c7⟩ := hc
            simp only [Bool.not_eq_true] at hst
            have hw0 := c7 hst
            have aW := countP_set_add_one isWinner (Thread.stopT .read1) hget rfl rfl
            have aD := countP_set_eq_of isDoneS (Thread.stopT .read1) hget rfl
            refine ⟨c1, c2, c3, c4, ?_, ?_, ?_⟩
            · simp only [setThread]
              rw [aD]
              exact c5
            · simp only [setThread]
              rw [aW]
              omega
            · intro hx
              simp at hx
        | read1 =>
          simp only [stepTh, stepStop] at h
          split at h
          · obtain rfl := Option.some.inj h
            exact invC_set_congr hc hget _ _ rfl rfl rfl rfl rfl rfl rfl rfl rfl rfl rfl
              rfl rfl
          · obtain rfl := Option.some.inj h
            exact invC_set_congr hc hget _ _ rfl rfl rfl rfl rfl rfl rfl rfl rfl rfl rfl
              rfl rfl
        | read2 =>
          simp only [stepTh, stepStop] at h
          split at h
          · obtain rfl := Option.some.inj h
            exact invC_set_congr hc hget _ _ rfl rfl rfl rfl rfl rfl rfl rfl rfl rfl rfl
              rfl rfl
          · obtain rfl := Option.some.inj h
            exact invC_set_congr hc hget _ _ rfl rfl rfl rfl rfl rfl rfl rfl rfl rfl rfl
              rfl rfl
        | sendTerm => simp [stepTh, stepStop] at h
        | closeJobQ =>
          simp only [stepTh, stepStop] at h
          obtain rfl := Option.some.inj h
          obtain ⟨c1, c2, c3, c4, c5, c6, c7⟩ := hc
          have aW := countP_set_eq_of isWinner (Thread.stopT .doneS) hget rfl
          have aD := countP_set_add_one isDoneS (Thread.stopT .doneS) hget rfl rfl
          refine ⟨c1, c2, c3, c4, ?_, ?_, ?_⟩
          · simp only [setThread]
            rw [aD]
            omega
          · simp only [setThread]
            rw [aW]
            exact c6
          · intro hx
            simp only [setThread] at hx
            have := c7 hx
            simp only [setThread]
            rw [aW]
            exact this
        | doneS => simp [stepTh, stepStop] at h
        | doneAlready => simp [stepTh, stepStop] at h
  | jobQSend i =>
    simp only [step] at h
    rcases hget : s.threads.get? i with _ | t
    · rw [hget] at h
      simp at h
    · rw [hget] at h
      cases t with
      | sub pc env =>
        cases pc with
        | sendJob =>
          rcases hd : s.disp with _ | env2 | _ | _ | _ | _ | _ | _ <;> rw [hd] at h <;>
            try simp at h
          obtain ⟨hclosed, rfl⟩ := h
          refine invC_set_congr hc hget _ _ rfl ?_ ?_ ?_ ?_ rfl rfl rfl rfl rfl rfl rfl rfl <;>
            simp [hd, dPastB, dPastW, dPastE, dPastR]
        | checkStop => simp at h
        | incQ => simp at h
        | doneAccepted => simp at h
        | doneRejected => simp at h
        | pcPanicked => simp at h
      | wrap pc env => simp at h
      | work pc => simp at h
      | stopT pc => simp at h
  | termSend i =>
    simp only [step] at h
    rcases hget : s.threads.get? i with _ | t
    · rw [hget] at h
      simp at h
    · rw [hget] at h
      cases t with
      | stopT pc =>
        cases pc with
        | sendTerm =>
          rcases hd : s.disp with _ | env2 | _ | _ | _ | _ | _ | _ <;> rw [hd] at h <;>
            try simp at h
          obtain rfl := h
          refine invC_set_congr hc hget _ _ rfl ?_ ?_ ?_ ?_ rfl rfl rfl rfl rfl rfl rfl rfl <;>
            simp [hd, dPastB, dPastW, dPastE, dPastR]
        | cas => simp at h
        | read1 => simp at h
        | read2 => simp at h
        | closeJobQ => simp at h
        | doneS => simp at h
        | doneAlready => simp at h
      | sub pc env => simp at h
      | wrap pc env => simp at h
      | work pc => simp at h
  | handoff i j =>
    simp only [step] at h
    rcases hget : s.threads.get? i with _ | t
    · rw [hget] at h
      simp at h
    · rw [hget] at h
      rcases hgetj : s.threads.get? j with _ | t2
      · rw [hgetj] at h
        cases t <;> simp at h
      · rw [hgetj] at h
        cases t with
        | wrap pc env =>
          cases pc with
          | send =>
            cases t2 with
            | work pc2 =>
              cases pc2 with
              | idle =>
                simp at h
                obtain ⟨hclosed, rfl⟩ := h
                have hij : i ≠ j := by
                  intro hij
                  rw [hij, hgetj] at hget
                  simp at hget
                have hgetj2 : (s.threads.set i (Thread.wrap .inc env)).get? j
                  = some (Thread.work .idle) := by
                  rw [get_set_ne _ _ _ _ hij]
                  exact hgetj
                have aW := countP_set_eq_of isWinner (Thread.wrap .inc env) hget rfl
                have aD := countP_set_eq_of isDoneS (Thread.wrap .inc env) hget rfl
                have bW := countP_set_eq_of isWinner (Thread.work (.running env)) hgetj2 rfl
                have bD := countP_set_eq_of isDoneS (Thread.work (.running env)) hgetj2 rfl
                refine invC_of_counts hc _ ?_ ?_ rfl rfl rfl rfl rfl rfl rfl rfl rfl rfl
                · rw [bW, aW]
                · rw [bD, aD]
              | spawnInc => simp at h
              | running env2 => simp at h
              | decJob => simp at h
              | exitDec => simp at h
              | deadW => simp at h
            | sub pc2 env2 => simp at h
            | wrap pc2 env2 => simp at h
            | stopT pc2 => simp at h
          | check => simp at h
          | inc => simp at h
          | dec => simp at h
          | done => simp at h
          | pcPanicked => simp at h
        | sub pc env => simp at h
        | work pc => simp at h
        | stopT pc => simp at h
  | timer i =>
    simp only [step] at h
    rcases hget : s.threads.get? i with _ | t
    · rw [hget] at h
      simp at h
    · rw [hget] at h
      cases t with
      | work pc =>
        cases pc with
        | idle =>
          simp only [timerTh] at h
          split at h
          · obtain rfl := Option.some.inj h
            exact invC_set_congr hc hget _ _ rfl rfl rfl rfl rfl rfl rfl rfl rfl rfl rfl
              rfl rfl
          · obtain rfl := Option.some.inj h
            exact hc
        | spawnInc => simp [timerTh] at h
        | running env => simp [timerTh] at h
        | decJob => simp [timerTh] at h
        | exitDec => simp [timerTh] at h
        | deadW => simp [timerTh] at h
      | sub pc env => simp [timerTh] at h
      | wrap pc env => simp [timerTh] at h
      | stopT pc => simp [timerTh] at h
  | closedRecv i =>
    simp only [step] at h
    rcases hget : s.threads.get? i with _ | t
    · rw [hget] at h
      simp at h
    · rw [hget] at h
      cases t with
      | work pc =>
        cases pc with
        | idle =>
          simp only [closedRecvTh] at h
          split at h
          · obtain rfl := Option.some.inj h
            exact invC_set_congr hc hget _ _ rfl rfl rfl rfl rfl rfl rfl rfl rfl rfl rfl
              rfl rfl
          · simp at h
        | spawnInc => simp [closedRecvTh] at h
        | running env => simp [closedRecvTh] at h
        | decJob => simp [closedRecvTh] at h
        | exitDec => simp [closedRecvTh] at h
        | deadW => simp [closedRecvTh] at h
      | sub pc env => simp [closedRecvTh] at h
      | wrap pc env => simp [closedRecvTh] at h
      | stopT pc => simp [closedRecvTh] at h
  | dstep =>
    simp only [step] at h
    rcases hd : s.disp with _ | env | _ | _ | _ | _ | _ | _ <;> rw [hd] at h
    · simp [dispatchStep] at h
    · simp only [dispatchStep] at h
      split at h
      · obtain rfl := Option.some.inj h
        refine invC_of_counts hc _ rfl rfl ?_ ?_ ?_ ?_ rfl rfl rfl rfl rfl rfl <;>
          simp [hd, dPastB, dPastW, dPastE, dPastR]
      · simp at h
    · simp only [dispatchStep] at h
      rcases hbq : s.bufQ with _ | ⟨env, rest⟩ <;> rw [hbq] at h
      · simp at h
      · obtain rfl := Option.some.inj h
        have bW := countP_append_of_false isWinner s.threads (Thread.wrap .check env) rfl
        have bD := countP_append_of_false isDoneS s.threads (Thread.wrap .check env) rfl
        refine invC_of_counts hc _ ?_ ?_ ?_ ?_ ?_ ?_ rfl rfl rfl rfl rfl rfl
        · exact bW
        · exact bD
        · simp [hd, dPastB]
        · simp [hd, dPastW]
        · simp [hd, dPastE]
        · simp [hd, dPastR]
    · simp only [dispatchStep] at h
      obtain rfl := Option.some.inj h
      obtain ⟨c1, c2, c3, c4, c5, c6, c7⟩ := hc
      rw [hd] at c1 c2 c3 c4
      simp [dPastB, dPastW, dPastE, dPastR] at c1 c2 c3 c4
      refine ⟨?_, ?_, ?_, ?_, c5, c6, c7⟩ <;>
        simp [dPastB, dPastW, dPastE, dPastR] <;> omega
    · simp only [dispatchStep] at h
      obtain rfl := Option.some.inj h
      obtain ⟨c1, c2, c3, c4, c5, c6, c7⟩ := hc
      rw [hd] at c1 c2 c3 c4
      simp [dPastB, dPastW, dPastE, dPastR] at c1 c2 c3 c4
      refine ⟨?_, ?_, ?_, ?_, c5, c6, c7⟩ <;>
        simp [dPastB, dPastW, dPastE, dPastR] <;> omega
    · simp only [dispatchStep] at h
      obtain rfl := Option.some.inj h
      obtain ⟨c1, c2, c3, c4, c5, c6, c7⟩ := hc
      rw [hd] at c1 c2 c3 c4
      simp [dPastB, dPastW, dPastE, dPastR] at c1 c2 c3 c4
      refine ⟨?_, ?_, ?_, ?_, c5, c6, c7⟩ <;>
        simp [dPastB, dPastW, dPastE, dPastR] <;> omega
    · simp only [dispatchStep] at h
      obtain rfl := Option.some.inj h
      obtain ⟨c1, c2, c3, c4, c5, c6, c7⟩ := hc
      rw [hd] at c1 c2 c3 c4
      simp [dPastB, dPastW, dPastE, dPastR] at c1 c2 c3 c4
      refine ⟨?_, ?_, ?_, ?_, c5, c6, c7⟩ <;>
        simp [dPastB, dPastW, dPastE, dPastR] <;> omega
    · simp [dispatchStep] at h

theorem countP_map_init (p : Thread → Bool) (agenda : List Agenda)
    (hp : ∀ a, p (initThread a) = false) :
    (agenda.map initThread).countP p = 0 := by
  induction agenda with
  | nil => simp
  | cons a rest ih => simp [List.countP_cons, hp a, ih]

/-- The state New returns satisfies the job-counter invariant. -/
theorem invQ_init (opts : Option Options) (agenda : List Agenda) :
    InvQ ((agenda.map initThread).countP isSub) (initState opts agenda) := by
  have z1 := countP_map_init isQSub agenda (fun a => by cases a <;> rfl)
  have z2 := countP_map_init isDA agenda (fun a => by cases a <;> rfl)
  have z3 := countP_map_init isWrapPre agenda (fun a => by cases a <;> rfl)
  have z4 := countP_map_init isWinc agenda (fun a => by cases a <;> rfl)
  have z5 := countP_map_init isWdec agenda (fun a => by cases a <;> rfl)
  have z6 := countP_map_init isWdone agenda (fun a => by cases a <;> rfl)
  have z7 := countP_map_init isRun agenda (fun a => by cases a <;> rfl)
  have z8 := countP_map_init isPost agenda (fun a => by cases a <;> rfl)
  have z9 := countP_map_init isWork agenda (fun a => by cases a <;> rfl)
  have z10 := countP_map_init isWrapPast agenda (fun a => by cases a <;> rfl)
  refine ⟨?_, ?_, ?_, ?_, rfl⟩ <;>
    simp only [initState, qCount, dispHold, List.length_nil] <;>
    simp [z1, z2, z3, z4, z5, z6, z7, z8, z9, z10]

/-- The state New returns satisfies the teardown invariant. -/
theorem invC_init (opts : Option Options) (agenda : List Agenda) :
    InvC (initState opts agenda) := by
  have z1 := countP_map_init isWinner agenda (fun a => by cases a <;> rfl)
  have z2 := countP_map_init isDoneS agenda (fun a => by cases a <;> rfl)
  refine ⟨rfl, rfl, rfl, rfl, ?_, ?_, ?_⟩ <;>
    simp only [initState] <;> simp [z1, z2, dPastB, dPastW, dPastE, dPastR]

/-- The job-counter invariant holds in every reachable state. -/
theorem invQ_run {n : Nat} (ls : List Label) (s s' : PoolState)
    (hq : InvQ n s) (h : run ls s = some s') : InvQ n s' := by
  induction ls generalizing s with
  | nil =>
    rw [run] at h
    exact (Option.some.inj h) ▸ hq
  | cons l rest ih =>
    rw [run] at h
    cases hs : step l s with
    | none => rw [hs] at h; simp at h
    | some s1 =>
      rw [hs] at h
      exact ih s1 (invQ_step hq hs) h

/-- The teardown invariant holds in every reachable state. -/
theorem invC_run (ls : List Label) (s s' : PoolState)
    (hc : InvC s) (h : run ls s = some s') : InvC s' := by
  induction ls generalizing s with
  | nil =>
    rw [run] at h
    exact (Option.some.inj h) ▸ hc
  | cons l rest ih =>
    rw [run] at h
    cases hs : step l s with
    | none => rw [hs] at h; simp at h
    | some s1 =>
      rw [hs] at h
      exact ih s1 (invC_step hc hs) h

theorem isDoneS_imp_isWinner : ∀ t, isDoneS t = true → isWinner t = true := by
  intro t
  cases t with
  | stopT pc => cases pc <;> simp [isDoneS, isWinner]
  | sub pc env => simp [isDoneS]
  | wrap pc env => simp [isDoneS]
  | work pc => simp [isDoneS]

theorem isQSub_imp_isSub : ∀ t, isQSub t = true → isSub t = true := by
  intro t
  cases t with
  | sub pc env => simp [isSub]
  | wrap pc env => simp [isQSub]
  | work pc => simp [isQSub]
  | stopT pc => simp [isQSub]

theorem isDA_imp_isSub : ∀ t, isDA t = true → isSub t = true := by
  intro t
  cases t with
  | sub pc env => simp [isSub]
  | wrap pc env => simp [isDA]
  | work pc => simp [isDA]
  | stopT pc => simp [isDA]

theorem isQSub_not_isDA : ∀ t, isQSub t = true → isDA t = false := by
  intro t
  cases t with
  | sub pc env => cases pc <;> simp [isQSub, isDA]
  | wrap pc env => simp [isQSub]
  | work pc => simp [isQSub]
  | stopT pc => simp [isQSub]

theorem isRun_imp_isWork : ∀ t, isRun t = true → isWork t = true := by
  intro t
  cases t with
  | work pc => simp [isWork]
  | sub pc env => simp [isRun]
  | wrap pc env => simp [isRun]
  | stopT pc => simp [isRun]

theorem isPost_imp_isWork : ∀ t, isPost t = true → isWork t = true := by
  intro t
  cases t with
  | work pc => simp [isWork]
  | sub pc env => simp [isPost]
  | wrap pc env => simp [isPost]
  | stopT pc => simp [isPost]

theorem isRun_not_isPost : ∀ t, isRun t = true → isPost t = false := by
  intro t
  cases t with
  | work pc => cases pc <;> simp [isRun, isPost]
  | sub pc env => simp [isRun]
  | wrap pc env => simp [isRun]
  | stopT pc => simp [isRun]

theorem isWrapPast_imp_isWrap : ∀ t, isWrapPast t = true → isWrap t = true := by
  intro t
  cases t with
  | wrap pc env => simp [isWrap]
  | sub pc env => simp [isWrapPast]
  | work pc => simp [isWrapPast]
  | stopT pc => simp [isWrapPast]

/-- Claim C9.  Stop is idempotent: a Stop caller that observes stopping
already set returns at once with no change other than its own program
counter (no channel is closed, no counter touched), and in every
reachable state each of the five channels has been closed at most once
(the dispatcher's deferred closes run once, and only the single winner of
the compare-and-swap can reach close(jobQ)). -/
theorem claim_C9_stop_idempotent :
    (∀ (s : PoolState) (i : Nat), s.stopping = true →
        s.threads.get? i = some (.stopT .cas) →
        step (.tstep i) s = some (setThread s i (.stopT .doneAlready)))
    ∧ (∀ (opts : Option Options) (agenda : List Agenda) (ls : List Label) (s : PoolState),
        run ls (initState opts agenda) = some s →
        s.closeJobQCount ≤ 1 ∧ s.closeBufCount ≤ 1 ∧ s.closeWorkerQCount ≤ 1
          ∧ s.closeErrCount ≤ 1 ∧ s.closeResCount ≤ 1) := by
  constructor
  · intro s i hstop hget
    simp only [step]
    rw [hget]
    simp [stepTh, stepStop, hstop]
  · intro opts agenda ls s hrun
    obtain ⟨c1, c2, c3, c4, c5, c6, c7⟩ := invC_run ls _ s (invC_init opts agenda) hrun
    have hds : s.threads.countP isDoneS ≤ s.threads.countP isWinner :=
      countP_le_of_imp _ _ isDoneS_imp_isWinner s.threads
    refine ⟨?_, ?_, ?_, ?_, ?_⟩
    · rw [c5]; omega
    · rw [c1]; split_ifs <;> omega
    · rw [c2]; split_ifs <;> omega
    · rw [c3]; split_ifs <;> omega
    · rw [c4]; split_ifs <;> omega

theorem claim_C9_witness :
    step (.tstep 0) c9state = some (setThread c9state 0 (.stopT .doneAlready))
    ∧ ((initState none []).closeJobQCount ≤ 1 ∧ (initState none []).closeBufCount ≤ 1
        ∧ (initState none []).closeWorkerQCount ≤ 1 ∧ (initState none []).closeErrCount ≤ 1
        ∧ (initState none []).closeResCount ≤ 1) :=
  ⟨claim_C9_stop_idempotent.1 c9state 0 rfl rfl,
   claim_C9_stop_idempotent.2 none [] [] (initState none []) rfl⟩

/-- Claim C10 as amended.  At every single instant of every execution, every
accepted job is counted by at least one of the two counters: in any
reachable state in which QueuedJobNum() and JobNum() are both zero
(read in one instant), no accepted envelope is anywhere in the pipeline -
none is awaiting dispatch, buffered, being handed off, or executing.
(The dispatch path increments numJobs before decrementing qnumJobs, which
is what makes the instantaneous sum cover every job.)  Stop's two reads,
however, happen at different instants, and claim_C10_cex shows the test
passing while a job is still running. -/
theorem claim_C10_amended (opts : Option Options) (agenda : List Agenda)
    (ls : List Label) (s : PoolState)
    (hrun : run ls (initState opts agenda) = some s)
    (hlen : agenda.length < U32)
    (hq0 : QueuedJobNum s = 0) (hj0 : JobNum s = 0) :
    inFlight s = 0 := by
  obtain ⟨q1, q2, q3, q4, q5⟩ := invQ_run ls _ s (invQ_init opts agenda) hrun
  have hsub : s.threads.countP isSub ≤ agenda.length := by
    rw [q5]
    have h1 : (agenda.map initThread).countP isSub ≤ (agenda.map initThread).length :=
      List.countP_le_length _
    simpa using h1
  have hp1 : s.threads.countP isQSub + s.threads.countP isDA ≤ s.threads.countP isSub :=
    countP_pair_le _ _ _ isQSub_imp_isSub isDA_imp_isSub isQSub_not_isDA s.threads
  have hp2 : s.threads.countP isRun + s.threads.countP isPost ≤ s.threads.countP isWork :=
    countP_pair_le _ _ _ isRun_imp_isWork isPost_imp_isWork isRun_not_isPost s.threads
  have hm : s.threads.countP isWrapPast ≤ s.threads.countP isWrap :=
    countP_le_of_imp _ _ isWrapPast_imp_isWrap s.threads
  have hw := countP_wrap_split s.threads
  simp only [QueuedJobNum] at hq0
  simp only [JobNum] at hj0
  simp only [qCount, U32] at q1 q2
  simp only [U32] at hlen
  simp only [inFlight]
  omega

theorem claim_C10_amended_witness :
    inFlight (initState none []) = 0 :=
  claim_C10_amended none [] [] (initState none []) rfl (by decide) rfl rfl

end GoWorkers
